import Mathlib

/-
Verification development for the process supervision module of feltjs/util
(src/lib/process.ts).  The module spawns OS child processes, tracks them in a
global registry, resolves promise-based completion results, supports graceful
shutdown on fatal errors, and offers a restartable-process abstraction.

Two executable models are developed below:

* `FeltUtil.P...`  : the spawn / registry / despawn layer
  (spawn_process, register_global_spawn, despawn, despawn_all,
  attach_process_error_handlers).  State is explicit; OS close events,
  despawn calls and spawns are events of an interpreter, and promises are
  resolved exactly once, recording the registry contents at resolution time.

* `FeltUtil.R...`  : the restartable-process layer
  (spawn_restartable_process), modelled with an explicit JavaScript-style
  microtask queue so that the interleaving of `restart`, `kill` and OS close
  events is faithful to single-threaded promise semantics: awaiting a promise
  parks a continuation on it in attachment order, resolving a promise moves
  its continuations to the back of the queue, and awaiting an
  already-resolved promise enqueues the continuation directly.
-/

namespace FeltUtil

/-- Exit code of a child process as reported by the OS close event: a number
or null, exactly as in Node's `close` listener arguments. -/
abbrev ExitCode := Option Int

/-- Termination signal as reported by the OS close event: a signal name or
null. -/
abbrev Sig := Option String

/-- The `Spawn_Result` record from process.ts: a tagged result with `ok`,
carrying both the exit `code` and the `signal` from the close event. -/
structure Spawn_Result where
  ok : Bool
  code : ExitCode
  signal : Sig
deriving Repr, DecidableEq

/-- JavaScript truthiness of the `code` argument of a close listener: a
number is truthy unless it is zero, and null is falsy. -/
def js_truthy : ExitCode → Bool
  | none => false
  | some n => n != 0

/-- The result constructed by the close listeners in `spawn_process`
(process.ts line 79) and `despawn` (line 120):
`code ? {ok: false, child, code, signal} : {ok: true, child, code, signal}`. -/
def to_spawn_result (code : ExitCode) (signal : Sig) : Spawn_Result :=
  if js_truthy code then { ok := false, code := code, signal := signal }
  else { ok := true, code := code, signal := signal }

/-- Association-list lookup keyed by Nat, used for promise and listener
tables. -/
def assoc {β : Type} (l : List (Nat × β)) (k : Nat) : Option β :=
  match l with
  | [] => none
  | (a, b) :: t => if a = k then some b else assoc t k

/-- Set-semantics add, mirroring JavaScript `Set.prototype.add`: adding a
present element leaves the set unchanged. -/
def set_add (l : List Nat) (x : Nat) : List Nat :=
  if x ∈ l then l else l ++ [x]

/-- Set-semantics delete, mirroring JavaScript `Set.prototype.delete`. -/
def set_delete (l : List Nat) (x : Nat) : List Nat :=
  l.filter (fun y => y ≠ x)

/-- State of the spawn / registry layer.  Child processes are identified by
pids allocated in order; promises by ids allocated in order.  `resolutions`
records, for each resolved promise, the `Spawn_Result` it resolved with and
a snapshot of `registry` taken at the moment of resolution (used to state
that unregistration happens before the `closed` future resolves).  -/
structure PState where
  /-- the module-level `global_spawn` set of process.ts -/
  registry : List Nat
  /-- every pid ever returned by `spawn_process` -/
  spawned_pids : List Nat
  /-- pids whose OS close event has fired -/
  closed_pids : List Nat
  /-- pids that have been sent a kill signal by `despawn` -/
  signaled : List Nat
  /-- count of `log.error` warnings emitted by register / unregister -/
  warnings : Nat
  /-- resolved promises: id, value, registry snapshot at resolution -/
  resolutions : List (Nat × (Spawn_Result × List Nat))
  /-- the `closed` promise allocated by `spawn_process` for each pid -/
  closed_prom : List (Nat × Nat)
  /-- close listeners attached by `despawn`: (pid, promise to resolve) -/
  despawn_listeners : List (Nat × Nat)
  next_pid : Nat
  next_prom : Nat
deriving Repr, DecidableEq

/-- The initial state: empty registry, nothing spawned. -/
def pinit : PState :=
  { registry := [], spawned_pids := [], closed_pids := [], signaled := []
    warnings := 0, resolutions := [], closed_prom := []
    despawn_listeners := [], next_pid := 0, next_prom := 0 }

/-- Whether promise `p` has resolved. -/
def isResolved (s : PState) (p : Nat) : Bool :=
  (assoc s.resolutions p).isSome

/-- Resolve promise `p` with result `r`, recording the current registry as
the snapshot; a second resolution attempt is ignored (promises resolve
exactly once). -/
def resolve_promise (s : PState) (p : Nat) (r : Spawn_Result) : PState :=
  if isResolved s p then s
  else { s with resolutions := s.resolutions ++ [(p, (r, s.registry))] }

/-- `register_global_spawn` (process.ts lines 99 to 110), registration half:
warn via `log.error` if the child is already in `global_spawn`, then
`global_spawn.add(child)`. -/
def register_global_spawn (s : PState) (pid : Nat) : PState :=
  let w := if pid ∈ s.registry then s.warnings + 1 else s.warnings
  { s with warnings := w, registry := set_add s.registry pid }

/-- The unregister closure returned by `register_global_spawn`: warn via
`log.error` if the child is not in `global_spawn`, then
`global_spawn.delete(child)`. -/
def unregister_global_spawn (s : PState) (pid : Nat) : PState :=
  let w := if pid ∈ s.registry then s.warnings else s.warnings + 1
  { s with warnings := w, registry := set_delete s.registry pid }

/-- `spawn_process` (process.ts lines 68 to 83): allocate the `closed`
promise, spawn the child, register it globally, and install the close
listener (the listener itself runs in `proc_close` when the OS reports
close).  Returns the new state, the pid, and the id of `closed`. -/
def spawn_process (s : PState) : PState × Nat × Nat :=
  let pid := s.next_pid
  let p := s.next_prom
  let s1 := { s with next_pid := pid + 1, next_prom := p + 1,
                     spawned_pids := s.spawned_pids ++ [pid],
                     closed_prom := s.closed_prom ++ [(pid, p)] }
  let s2 := register_global_spawn s1 pid
  (s2, pid, p)

/-- The close listener installed by `spawn_process` (process.ts lines 77 to
81): first `unregister()`, then `resolve(...)` of the `closed` promise with
the result derived from the close event. -/
def spawn_close_listener (s : PState) (pid : Nat) (r : Spawn_Result) : PState :=
  let s1 := unregister_global_spawn s pid
  match assoc s1.closed_prom pid with
  | some p => resolve_promise s1 p r
  | none => s1

/-- The close listeners attached by `despawn` for `pid`, fired in
attachment order, each resolving its own promise with the same result. -/
def despawn_listeners_fire (s : PState) (pid : Nat) (r : Spawn_Result) : PState :=
  (s.despawn_listeners.filter (fun e => e.1 = pid)).foldl
    (fun t e => resolve_promise t e.2 r) s

/-- The OS close event for `pid` (fires at most once per process): run the
listener installed by `spawn_process`, then any listeners attached later by
`despawn`, and record the pid as closed. -/
def proc_close (s : PState) (pid : Nat) (code : ExitCode) (sig : Sig) : PState :=
  if pid ∈ s.spawned_pids ∧ pid ∉ s.closed_pids then
    let r := to_spawn_result code sig
    let s2 := spawn_close_listener s pid r
    let s3 := despawn_listeners_fire s2 pid r
    { s3 with closed_pids := s3.closed_pids ++ [pid] }
  else s

/-- `despawn` (process.ts lines 115 to 124): allocate a fresh promise,
attach a new close listener that will resolve it, and send the kill signal.
The registry is not touched.  Returns the new state and the promise id. -/
def despawnCall (s : PState) (pid : Nat) : PState × Nat :=
  let p := s.next_prom
  ({ s with next_prom := p + 1,
            despawn_listeners := s.despawn_listeners ++ [(pid, p)],
            signaled := s.signaled ++ [pid] }, p)

/-- `despawn_all` (process.ts lines 126 to 127): despawn every member of the
registry snapshot taken at the call, collecting the promise ids in order;
the `Promise.all` aggregate resolves exactly when every collected promise
has resolved, and its result sequence has one entry per collected
promise. -/
def despawn_all (s : PState) : PState × List Nat :=
  s.registry.foldl
    (fun (acc : PState × List Nat) pid =>
      let r := despawnCall acc.1 pid
      (r.1, acc.2 ++ [r.2]))
    (s, [])

/-- Events of the spawn / registry layer: a spawn request, an OS close
report (only meaningful for a spawned, not-yet-closed pid), a despawn of a
spawned pid, and a despawn_all sweep. -/
inductive PEvent where
  | spawnE : PEvent
  | procCloseE (pid : Nat) (code : ExitCode) (sig : Sig) : PEvent
  | despawnE (pid : Nat) : PEvent
  | despawnAllE : PEvent
deriving Repr, DecidableEq

/-- One step of the spawn / registry interpreter. -/
def pstep (s : PState) (e : PEvent) : PState :=
  match e with
  | .spawnE => (spawn_process s).1
  | .procCloseE pid code sig => proc_close s pid code sig
  | .despawnE pid => if pid ∈ s.spawned_pids then (despawnCall s pid).1 else s
  | .despawnAllE => (despawn_all s).1

/-- Run the spawn / registry interpreter over a list of events. -/
def prun (s : PState) (es : List PEvent) : PState :=
  es.foldl pstep s

/-
Restartable process model (spawn_restartable_process, process.ts lines
163 to 194).  The two async local functions `close` and `restart` and the
exported `kill` suspend at `await` points; each suspension parks a
continuation (an `RKont`) on the awaited promise.  Resolving a promise
moves its parked continuations, in attachment order, to the back of the
global microtask queue; attaching to an already-resolved promise enqueues
the continuation directly, matching JavaScript's handling of `await` on a
resolved promise.
-/

/-- Continuations of the restartable-process async functions.

* `resolveK p` resolves promise `p`.  It stands for the tail of an async
  function that has nothing left to do but resolve its own promise: the
  `return restarting` branch of `restart` (whose promise adopts the awaited
  one), and the end of `kill` after its `await close()`.
* `closeK cp` is `close` resumed after `await restarting`: it runs
  `restarting = null` and resolves close's own promise `cp`.
* `restartK rp` is `restart` resumed after `await close()`: it runs
  `spawned = spawn_process(...)` and resolves restart's promise `rp`.
* `killK kp` is `kill` resumed after `await restarting`: it calls `close()`
  and attaches `resolveK kp` to close's promise. -/
inductive RKont where
  | resolveK (p : Nat) : RKont
  | closeK (cp : Nat) : RKont
  | restartK (rp : Nat) : RKont
  | killK (kp : Nat) : RKont
deriving Repr, DecidableEq

/-- A promise is either pending, with parked continuations in attachment
order, or resolved. -/
inductive PromSt where
  | pending (ks : List RKont) : PromSt
  | resolvedP : PromSt
deriving Repr, DecidableEq

/-- State of the restartable-process model.  `spawned` and `restarting` are
the two mutable variables of `spawn_restartable_process`; `spawned` holds
the pid and `closed`-promise id of the current `Spawned_Process`, and
`restarting` holds a promise id.  `procs` is the set of OS-live children;
`peak` records the largest size `procs` has ever reached, so that a bound
on `peak` is a bound on the number of simultaneously-live children at every
instant. -/
structure RState where
  spawned : Option (Nat × Nat)
  restarting : Option Nat
  procs : List Nat
  rsignaled : List Nat
  closed_promR : List (Nat × Nat)
  proms : List (Nat × PromSt)
  queue : List RKont
  next_pid : Nat
  next_prom : Nat
  peak : Nat
deriving Repr, DecidableEq

/-- Look up the state of promise `p`. -/
def promSt (s : RState) (p : Nat) : Option PromSt :=
  assoc s.proms p

/-- Overwrite the value stored under key `p` in an association list. -/
def set_assoc (l : List (Nat × PromSt)) (p : Nat) (st : PromSt) :
    List (Nat × PromSt) :=
  match l with
  | [] => []
  | (a, b) :: t =>
      if a = p then (p, st) :: set_assoc t p st else (a, b) :: set_assoc t p st

/-- Overwrite the state of promise `p`. -/
def setProm (s : RState) (p : Nat) (st : PromSt) : RState :=
  { s with proms := set_assoc s.proms p st }

/-- Allocate a fresh pending promise. -/
def fresh_prom (s : RState) : RState × Nat :=
  let p := s.next_prom
  ({ s with next_prom := p + 1, proms := s.proms ++ [(p, .pending [])] }, p)

/-- Park continuation `k` on promise `p`; if `p` is already resolved the
continuation goes straight onto the microtask queue. -/
def attachK (s : RState) (p : Nat) (k : RKont) : RState :=
  match promSt s p with
  | some (.pending ks) => setProm s p (.pending (ks ++ [k]))
  | some .resolvedP => { s with queue := s.queue ++ [k] }
  | none => s

/-- Resolve promise `p`: move its parked continuations to the back of the
microtask queue.  Resolving twice is a no-op. -/
def resolveProm (s : RState) (p : Nat) : RState :=
  match promSt s p with
  | some (.pending ks) =>
      let s1 := setProm s p .resolvedP
      { s1 with queue := s1.queue ++ ks }
  | _ => s

/-- Whether promise `p` has resolved. -/
def isResolvedR (s : RState) (p : Nat) : Bool :=
  match promSt s p with
  | some .resolvedP => true
  | _ => false

/-- The call to `spawn_process` made inside the restartable process:
allocate a pid and its pending `closed` promise, add the pid to the live
set, and record the peak live count. -/
def spawn_child (s : RState) : RState × Nat × Nat :=
  let pid := s.next_pid
  let s1 := { s with next_pid := pid + 1 }
  let r := fresh_prom s1
  let s2 := { r.1 with procs := r.1.procs ++ [pid],
                       closed_promR := r.1.closed_promR ++ [(pid, r.2)] }
  let s3 := { s2 with peak := max s2.peak s2.procs.length }
  (s3, pid, r.2)

/-- The synchronous part of `close` (process.ts lines 168 to 175):
`if (!spawned) return;` makes close's promise born resolved; otherwise set
`restarting = spawned.closed`, send `spawned.child.kill()`, clear
`spawned`, and park close's continuation on the awaited promise.  Returns
the id of close's own promise. -/
def closeCall (s : RState) : RState × Nat :=
  match s.spawned with
  | none =>
      let p := s.next_prom
      ({ s with next_prom := p + 1, proms := s.proms ++ [(p, .resolvedP)] }, p)
  | some (pid, cpid) =>
      let r := fresh_prom s
      let s2 := { r.1 with restarting := some cpid,
                           rsignaled := r.1.rsignaled ++ [pid],
                           spawned := none }
      (attachK s2 cpid (.closeK r.2), r.2)

/-- The synchronous part of `restart` (process.ts lines 176 to 180):
coalesce onto the in-flight `restarting` promise if there is one, otherwise
close a current child first and park the respawn continuation, otherwise
spawn directly and resolve restart's promise synchronously. -/
def restartCall (s : RState) : RState × Nat :=
  match s.restarting with
  | some p =>
      let r := fresh_prom s
      (attachK r.1 p (.resolveK r.2), r.2)
  | none =>
      match s.spawned with
      | some _ =>
          let r := fresh_prom s
          let c := closeCall r.1
          (attachK c.1 c.2 (.restartK r.2), r.2)
      | none =>
          let r := fresh_prom s
          let sp := spawn_child r.1
          let s3 := { sp.1 with spawned := some sp.2 }
          (resolveProm s3 r.2, r.2)

/-- The synchronous part of `kill` (process.ts lines 181 to 184): await the
in-flight `restarting` promise if there is one, otherwise call `close()`
directly and resolve kill's promise once close's promise resolves. -/
def killCall (s : RState) : RState × Nat :=
  match s.restarting with
  | some p =>
      let r := fresh_prom s
      (attachK r.1 p (.killK r.2), r.2)
  | none =>
      let r := fresh_prom s
      let c := closeCall r.1
      (attachK c.1 c.2 (.resolveK r.2), r.2)

/-- Run one microtask. -/
def runKont (s : RState) (k : RKont) : RState :=
  match k with
  | .resolveK p => resolveProm s p
  | .closeK cp => resolveProm { s with restarting := none } cp
  | .restartK rp =>
      let sp := spawn_child s
      let s2 := { sp.1 with spawned := some sp.2 }
      resolveProm s2 rp
  | .killK kp =>
      let c := closeCall s
      attachK c.1 c.2 (.resolveK kp)

/-- Drain the microtask queue, one continuation at a time, with fuel. -/
def drain : Nat → RState → RState
  | 0, s => s
  | n + 1, s =>
      match s.queue with
      | [] => s
      | k :: rest => drain n (runKont { s with queue := rest } k)

/-- Weight of a continuation for the termination measure: `killK` may
create two new continuations, so it weighs 3; every other continuation
creates none and weighs 1. -/
def kweight : RKont → Nat
  | .killK _ => 3
  | .resolveK _ => 1
  | .closeK _ => 1
  | .restartK _ => 1

/-- Total weight of a list of continuations. -/
def kontsWeight (ks : List RKont) : Nat :=
  (ks.map kweight).sum

/-- Weight parked on a promise. -/
def promWeight : PromSt → Nat
  | .pending ks => kontsWeight ks
  | .resolvedP => 0

/-- Termination measure: total weight of the queue and of all parked
continuations.  Every microtask strictly decreases it. -/
def measureR (s : RState) : Nat :=
  kontsWeight s.queue + (s.proms.map (fun e => promWeight e.2)).sum

/-- Events driving the restartable process: the exported `restart` and
`kill` calls, and the OS close report for a live child. -/
inductive REvent where
  | callRestart : REvent
  | callKill : REvent
  | procClose (pid : Nat) : REvent
deriving Repr, DecidableEq

/-- One event step: run the synchronous part of the event, then drain the
microtask queue to quiescence (the fuel exceeds the measure, which bounds
the number of remaining microtasks). -/
def rstep (s : RState) (e : REvent) : RState :=
  let s1 := match e with
    | .callRestart => (restartCall s).1
    | .callKill => (killCall s).1
    | .procClose pid =>
        if pid ∈ s.procs then
          let s2 := { s with procs := set_delete s.procs pid }
          match assoc s2.closed_promR pid with
          | some cp => resolveProm s2 cp
          | none => s2
        else s
  drain (measureR s1 + 1) s1

/-- Run the restartable-process interpreter over a list of events. -/
def rrun (s : RState) (es : List REvent) : RState :=
  es.foldl rstep s

/-- The empty restartable-process state, before the constructor body. -/
def rempty : RState :=
  { spawned := none, restarting := none, procs := [], rsignaled := []
    closed_promR := [], proms := [], queue := [], next_pid := 0
    next_prom := 0, peak := 0 }

/-- `spawn_restartable_process` (process.ts lines 163 to 194): from the
empty state, the constructor invokes `restart()` immediately without
awaiting it (`void restart()`), which spawns the first child
synchronously. -/
def rinit : RState :=
  drain (measureR (restartCall rempty).1 + 1) (restartCall rempty).1

/-- A promise state with no parked continuations: resolved, or pending with
an empty reaction list. -/
def reactions_empty (st : PromSt) : Prop :=
  st = PromSt.resolvedP ∨ st = PromSt.pending []

instance reactions_empty_dec : DecidablePred reactions_empty := fun st =>
  decidable_of_iff (st = PromSt.resolvedP ∨ st = PromSt.pending []) Iff.rfl

/-- Bookkeeping facts maintained at every quiescent state of the
restartable process: empty microtask queue, peak live count at most one,
distinct promise ids all below the allocation counter, and child pids below
the pid counter. -/
def RBook (s : RState) : Prop :=
  s.queue = [] ∧ s.peak ≤ 1 ∧
  (s.proms.map (fun e => e.1)).Nodup ∧
  (∀ e ∈ s.proms, e.1 < s.next_prom) ∧
  (∀ e ∈ s.closed_promR, e.1 < s.next_pid)

/-- Quiescent shape: one child running in the slot, no transition in
flight, no parked continuations anywhere. -/
def ShapeRun (s : RState) : Prop :=
  ∃ x cx, s.spawned = some (x, cx) ∧ s.restarting = none ∧ s.procs = [x] ∧
    assoc s.closed_promR x = some cx ∧
    promSt s cx = some (PromSt.pending []) ∧
    (∀ e ∈ s.proms, e.1 ≠ cx → reactions_empty e.2)

/-- Quiescent shape: the slot still holds a child that already exited
naturally (its `closed` promise resolved), no transition in flight. -/
def ShapeStale (s : RState) : Prop :=
  ∃ x cx, s.spawned = some (x, cx) ∧ s.restarting = none ∧ s.procs = [] ∧
    assoc s.closed_promR x = some cx ∧
    promSt s cx = some PromSt.resolvedP ∧
    (∀ e ∈ s.proms, reactions_empty e.2)

/-- Quiescent shape: a close-and-respawn transition is in flight.  The
dying child `x` has been signaled; `close` is parked on its `closed`
promise `cx` together with the coalesced restarts, and the respawn
continuation is parked on close's own promise `cp`. -/
def ShapeClosing (s : RState) : Prop :=
  ∃ (x cx cp rp : Nat) (rps : List Nat), s.spawned = none ∧ s.restarting = some cx ∧
    s.procs = [x] ∧ assoc s.closed_promR x = some cx ∧
    promSt s cx = some (PromSt.pending (RKont.closeK cp :: rps.map RKont.resolveK)) ∧
    promSt s cp = some (PromSt.pending [RKont.restartK rp]) ∧
    cp ≠ cx ∧ rp < s.next_prom ∧
    (∀ e ∈ s.proms, e.1 ≠ cx → e.1 ≠ cp → reactions_empty e.2)

/-- The reachable-state invariant of the restartable process when no
`kill` call occurs. -/
def GoodR (s : RState) : Prop :=
  RBook s ∧ (ShapeRun s ∨ ShapeStale s ∨ ShapeClosing s)

/-
Fatal error handling model (attach_process_error_handlers, process.ts
lines 129 to 147).  The handlers are modelled by the sequence of actions
they perform: logging the fault and invoking despawn_all, in order.
-/

/-- A JavaScript value as seen by the rejection handler: either an Error
instance or any other value, each carrying a display string. -/
inductive JSVal where
  | errorV (msg : String) : JSVal
  | otherV (msg : String) : JSVal
deriving Repr, DecidableEq

/-- The `err instanceof Error` test. -/
def is_error : JSVal → Bool
  | .errorV _ => true
  | .otherV _ => false

/-- String coercion of a value. -/
def js_string_of : JSVal → String
  | .errorV m => m
  | .otherV m => m

/-- `new Error(err)`: wrap a value into an Error carrying its string
coercion as message. -/
def new_Error (v : JSVal) : JSVal :=
  .errorV (js_string_of v)

/-- Observable actions of the fatal-error path: an error log with its
label and logged value, and the invocation of `despawn_all` (awaited to
completion). -/
inductive FatalAction where
  | logAction (label : String) (v : JSVal) : FatalAction
  | despawnAllAction : FatalAction
deriving Repr, DecidableEq

/-- `handle_fatal_error` (process.ts lines 136 to 139): log the error with
the given label, then invoke and await `despawn_all()`. -/
def handle_fatal_error (err : JSVal) (label : String) : List FatalAction :=
  [.logAction label err, .despawnAllAction]

/-- `handle_unhandled_rejection` (process.ts lines 141 to 148): compute the
label via the optional `to_error_label` (falling back to the generic label
when it is absent or returns null), and wrap a non-Error rejection value in
an Error before funneling into `handle_fatal_error`. -/
def handle_unhandled_rejection (to_error_label : Option (JSVal → Option String))
    (err : JSVal) : List FatalAction :=
  let label := match to_error_label with
    | some f => (f err).getD "unhandledRejection"
    | none => "unhandledRejection"
  if is_error err then handle_fatal_error err label
  else handle_fatal_error (new_Error err) label

/-- The pair of process-wide handlers installed by
`attach_process_error_handlers` (process.ts lines 129 to 134):
`uncaughtException` is wired to `handle_fatal_error` with its default
label, and `unhandledRejection` to `handle_unhandled_rejection`. -/
structure ProcessHandlers where
  onUncaughtException : JSVal → List FatalAction
  onUnhandledRejection : JSVal → List FatalAction

/-- `attach_process_error_handlers` itself. -/
def attach_process_error_handlers (to_error_label : Option (JSVal → Option String)) :
    ProcessHandlers :=
  { onUncaughtException := fun err => handle_fatal_error err "handle_fatal_error"
    onUnhandledRejection := handle_unhandled_rejection to_error_label }

/-
Helper lemmas.
-/

theorem assoc_append_of_none {β : Type} {l1 : List (Nat × β)} (l2 : List (Nat × β))
    {k : Nat} (h : assoc l1 k = none) : assoc (l1 ++ l2) k = assoc l2 k := by
  induction l1 with
  | nil => simp
  | cons e t ih =>
      cases e with
      | mk a b =>
          by_cases he : a = k
          · simp [assoc, he] at h
          · simp only [assoc, he, if_false] at h
            simpa [assoc, he] using ih h

theorem assoc_append_of_some {β : Type} {l1 : List (Nat × β)} (l2 : List (Nat × β))
    {k : Nat} {v : β} (h : assoc l1 k = some v) : assoc (l1 ++ l2) k = some v := by
  induction l1 with
  | nil => simp [assoc] at h
  | cons e t ih =>
      cases e with
      | mk a b =>
          by_cases he : a = k
          · simp [assoc, he] at h ⊢
            exact h
          · simp only [assoc, he, if_neg, if_false] at h
            simpa [assoc, he] using ih h

theorem assoc_none_of_forall {β : Type} {l : List (Nat × β)} {k : Nat}
    (h : ∀ e ∈ l, e.1 ≠ k) : assoc l k = none := by
  induction l with
  | nil => rfl
  | cons e t ih =>
      cases e with
      | mk a b =>
          have ha : a ≠ k := h (a, b) (by simp)
          simp only [assoc, ha, if_neg, if_false]
          exact ih fun e he => h e (by simp [he])

theorem assoc_mem {β : Type} {l : List (Nat × β)} {k : Nat} {v : β}
    (h : assoc l k = some v) : (k, v) ∈ l := by
  induction l with
  | nil => simp [assoc] at h
  | cons e t ih =>
      cases e with
      | mk a b =>
          by_cases he : a = k
          · subst he
            simp [assoc] at h
            simp [h]
          · simp only [assoc, he, if_neg, if_false] at h
            simp [ih h]

theorem mem_set_delete {l : List Nat} {x y : Nat} :
    x ∈ set_delete l y ↔ x ∈ l ∧ x ≠ y := by
  simp [set_delete, List.mem_filter]

theorem not_mem_set_delete_self {l : List Nat} {x : Nat} : x ∉ set_delete l x := by
  intro h
  exact (mem_set_delete.1 h).2 rfl

theorem set_delete_of_not_mem {l : List Nat} {x : Nat} (h : x ∉ l) :
    set_delete l x = l := by
  have : ∀ y ∈ l, decide (y ≠ x) = true := by
    intro y hy
    simp only [decide_eq_true_eq]
    exact fun e => h (e ▸ hy)
  simpa [set_delete] using List.filter_eq_self.2 this

theorem mem_set_add {l : List Nat} {x y : Nat} :
    x ∈ set_add l y ↔ x ∈ l ∨ x = y := by
  by_cases h : y ∈ l
  · simp only [set_add, h, if_pos]
    constructor
    · exact fun hx => Or.inl hx
    · rintro (hx | rfl)
      · exact hx
      · exact h
  · simp [set_add, h]

/-
Claim theorems.
-/

/-- C1, counterexample.  The spec claims a process killed by a signal with a
null exit code yields `Failure{code, signal}`.  The close listeners in
`spawn_process` and `despawn` test only JavaScript truthiness of `code`, so
a null exit code with a non-null signal resolves with `ok: true`
(a Success), contradicting the claim at this input. -/
theorem spawn_result_null_code_signaled_ok :
    to_spawn_result none (some "SIGTERM") =
      { ok := true, code := none, signal := some "SIGTERM" } := rfl

/-- C1, amended.  The resolved result is a Success exactly when the exit
code is zero or null, regardless of the signal, and a Failure exactly when
the exit code is non-zero; both variants carry the close event's code and
signal unchanged.  In particular a signal-killed process with a null exit
code yields Success, not Failure. -/
theorem spawn_result_ok_iff_code_zero_or_null :
    ∀ (code : ExitCode) (sig : Sig),
      ((to_spawn_result code sig).ok = true ↔ (code = none ∨ code = some 0)) ∧
      (to_spawn_result code sig).code = code ∧
      (to_spawn_result code sig).signal = sig := by
  intro code sig
  refine ⟨?_, ?_, ?_⟩
  · cases code with
    | none => simp [to_spawn_result, js_truthy]
    | some n =>
        by_cases hn : n = 0
        · subst hn
          simp [to_spawn_result, js_truthy]
        · simp [to_spawn_result, js_truthy, hn]
  · cases code with
    | none => rfl
    | some n =>
        by_cases hn : n = 0
        · subst hn; rfl
        · simp [to_spawn_result, js_truthy, hn]
  · cases code with
    | none => rfl
    | some n =>
        by_cases hn : n = 0
        · subst hn; rfl
        · simp [to_spawn_result, js_truthy, hn]

/-- C7.  Registering an already-present handle logs exactly one warning and
leaves the registry unchanged, still containing the handle exactly once;
unregistering an absent handle logs exactly one warning and leaves the
registry unchanged.  Both operations are total functions of the state, so
neither throws. -/
theorem register_unregister_warn_once (s : PState) (pid : Nat)
    (hnd : s.registry.Nodup) :
    (pid ∈ s.registry →
       (register_global_spawn s pid).warnings = s.warnings + 1 ∧
       (register_global_spawn s pid).registry = s.registry ∧
       (register_global_spawn s pid).registry.count pid = 1) ∧
    (pid ∉ s.registry →
       (unregister_global_spawn s pid).warnings = s.warnings + 1 ∧
       (unregister_global_spawn s pid).registry = s.registry) := by
  constructor
  · intro hmem
    refine ⟨by simp [register_global_spawn, hmem], ?_, ?_⟩
    · simp [register_global_spawn, set_add, hmem]
    · have hreg : (register_global_spawn s pid).registry = s.registry := by
        simp [register_global_spawn, set_add, hmem]
      rw [hreg]
      exact List.count_eq_one_of_mem hnd hmem
  · intro hmem
    refine ⟨by simp [unregister_global_spawn, hmem], ?_⟩
    simp [unregister_global_spawn, set_delete_of_not_mem hmem]

/-- C7, witness: after one spawn, pid 0 is registered once and pid 5 is
absent; the two branches of the theorem apply. -/
theorem register_unregister_warn_once_witness :
    (prun pinit [.spawnE]).registry.Nodup ∧
    (0 ∈ (prun pinit [.spawnE]).registry) ∧
    ((register_global_spawn (prun pinit [.spawnE]) 0).warnings =
       (prun pinit [.spawnE]).warnings + 1 ∧
     (register_global_spawn (prun pinit [.spawnE]) 0).registry =
       (prun pinit [.spawnE]).registry ∧
     (register_global_spawn (prun pinit [.spawnE]) 0).registry.count 0 = 1) ∧
    ((unregister_global_spawn (prun pinit [.spawnE]) 5).warnings =
       (prun pinit [.spawnE]).warnings + 1 ∧
     (unregister_global_spawn (prun pinit [.spawnE]) 5).registry =
       (prun pinit [.spawnE]).registry) :=
  ⟨by decide, by decide,
   (register_unregister_warn_once (prun pinit [.spawnE]) 0 (by decide)).1 (by decide),
   (register_unregister_warn_once (prun pinit [.spawnE]) 5 (by decide)).2 (by decide)⟩

/-- C8.  `despawn` itself does not remove the handle from the global
registry: the call leaves the registry (and all other bookkeeping except
the freshly attached close listener, the fresh promise counter and the
kill-signal record) unchanged; removal happens only inside the close
listener installed at spawn time, which is part of `proc_close`. -/
theorem despawn_preserves_registry :
    ∀ (s : PState) (pid : Nat),
      (despawnCall s pid).1.registry = s.registry ∧
      (despawnCall s pid).1.spawned_pids = s.spawned_pids ∧
      (despawnCall s pid).1.closed_pids = s.closed_pids ∧
      (despawnCall s pid).1.warnings = s.warnings ∧
      (despawnCall s pid).1.resolutions = s.resolutions ∧
      (despawnCall s pid).1.closed_prom = s.closed_prom := by
  intro s pid
  exact ⟨rfl, rfl, rfl, rfl, rfl, rfl⟩

/-- C9.  Both installed fatal-fault handlers perform exactly an error log
followed by a despawn_all invocation, in that order; the rejection handler
always logs an Error value, wrapping the rejected value in an Error when it
is not one already, and logs the value itself when it is. -/
theorem fatal_handlers_log_then_despawn_all :
    ∀ (f : Option (JSVal → Option String)) (err : JSVal),
      ((attach_process_error_handlers f).onUncaughtException err =
        [.logAction "handle_fatal_error" err, .despawnAllAction]) ∧
      (∃ l v, (attach_process_error_handlers f).onUnhandledRejection err =
        [.logAction l v, .despawnAllAction] ∧ is_error v = true ∧
        (is_error err = true → v = err)) := by
  intro f err
  constructor
  · rfl
  · cases err with
    | errorV m =>
        refine ⟨match f with
                | some g => ((g (.errorV m)).getD "unhandledRejection")
                | none => "unhandledRejection", .errorV m, ?_, rfl, fun _ => rfl⟩
        cases f with
        | none =>
            simp [attach_process_error_handlers, handle_unhandled_rejection,
                  is_error, handle_fatal_error]
        | some g =>
            simp [attach_process_error_handlers, handle_unhandled_rejection,
                  is_error, handle_fatal_error]
    | otherV m =>
        refine ⟨match f with
                | some g => ((g (.otherV m)).getD "unhandledRejection")
                | none => "unhandledRejection", .errorV m, ?_, rfl, by simp [is_error]⟩
        cases f with
        | none =>
            simp [attach_process_error_handlers, handle_unhandled_rejection,
                  is_error, handle_fatal_error, new_Error, js_string_of]
        | some g =>
            simp [attach_process_error_handlers, handle_unhandled_rejection,
                  is_error, handle_fatal_error, new_Error, js_string_of]

theorem resolve_promise_frame (s : PState) (p : Nat) (r : Spawn_Result) :
    (resolve_promise s p r).registry = s.registry ∧
    (resolve_promise s p r).closed_pids = s.closed_pids ∧
    (resolve_promise s p r).closed_prom = s.closed_prom ∧
    (resolve_promise s p r).despawn_listeners = s.despawn_listeners ∧
    (resolve_promise s p r).spawned_pids = s.spawned_pids ∧
    (resolve_promise s p r).next_prom = s.next_prom ∧
    (resolve_promise s p r).next_pid = s.next_pid := by
  by_cases h : isResolved s p <;> simp [resolve_promise, h]

theorem resolve_promise_resolutions (s : PState) (p : Nat) (r : Spawn_Result) :
    (resolve_promise s p r).resolutions = s.resolutions ∨
    (resolve_promise s p r).resolutions = s.resolutions ++ [(p, (r, s.registry))] := by
  by_cases h : isResolved s p <;> simp [resolve_promise, h]

theorem resolve_fold_spec (r : Spawn_Result) (l : List (Nat × Nat)) :
    ∀ t : PState,
      ∃ tail : List (Nat × (Spawn_Result × List Nat)),
        (List.foldl (fun u e => resolve_promise u e.2 r) t l).resolutions
            = t.resolutions ++ tail ∧
        (∀ x ∈ tail, ∃ e ∈ l, x.1 = e.2) ∧
        (List.foldl (fun u e => resolve_promise u e.2 r) t l).registry = t.registry ∧
        (List.foldl (fun u e => resolve_promise u e.2 r) t l).closed_pids = t.closed_pids ∧
        (List.foldl (fun u e => resolve_promise u e.2 r) t l).closed_prom = t.closed_prom ∧
        (List.foldl (fun u e => resolve_promise u e.2 r) t l).despawn_listeners
            = t.despawn_listeners ∧
        (List.foldl (fun u e => resolve_promise u e.2 r) t l).spawned_pids = t.spawned_pids ∧
        (List.foldl (fun u e => resolve_promise u e.2 r) t l).next_prom = t.next_prom := by
  induction l with
  | nil =>
      intro t
      exact ⟨[], by simp, by simp, rfl, rfl, rfl, rfl, rfl, rfl⟩
  | cons e rest ih =>
      intro t
      obtain ⟨tail, h1, h2, h3, h4, h5, h6, h7, h8⟩ := ih (resolve_promise t e.2 r)
      have hfr := resolve_promise_frame t e.2 r
      rcases resolve_promise_resolutions t e.2 r with hres | hres
      · refine ⟨tail, ?_, ?_, ?_, ?_, ?_, ?_, ?_, ?_⟩ <;>
          simp only [List.foldl_cons] at *
        · rw [h1, hres]
        · intro x hx
          obtain ⟨e', he', hx'⟩ := h2 x hx
          exact ⟨e', by simp [he'], hx'⟩
        · rw [h3, hfr.1]
        · rw [h4, hfr.2.1]
        · rw [h5, hfr.2.2.1]
        · rw [h6, hfr.2.2.2.1]
        · rw [h7, hfr.2.2.2.2.1]
        · rw [h8, hfr.2.2.2.2.2.1]
      · refine ⟨(e.2, (r, t.registry)) :: tail, ?_, ?_, ?_, ?_, ?_, ?_, ?_, ?_⟩ <;>
          simp only [List.foldl_cons] at *
        · rw [h1, hres]; simp
        · intro x hx
          rcases List.mem_cons.1 hx with hx | hx
          · exact ⟨e, by simp, by simp [hx]⟩
          · obtain ⟨e', he', hx'⟩ := h2 x hx
            exact ⟨e', by simp [he'], hx'⟩
        · rw [h3, hfr.1]
        · rw [h4, hfr.2.1]
        · rw [h5, hfr.2.2.1]
        · rw [h6, hfr.2.2.2.1]
        · rw [h7, hfr.2.2.2.2.1]
        · rw [h8, hfr.2.2.2.2.2.1]

theorem resolve_fold_next_pid (r : Spawn_Result) (l : List (Nat × Nat)) :
    ∀ t : PState,
      (List.foldl (fun u e => resolve_promise u e.2 r) t l).next_pid = t.next_pid := by
  induction l with
  | nil => intro t; rfl
  | cons e rest ih =>
      intro t
      rw [List.foldl_cons, ih]
      exact (resolve_promise_frame t e.2 r).2.2.2.2.2.2

/-- Frame and resolution behaviour of the despawn-attached listeners. -/
theorem despawn_listeners_fire_spec (s : PState) (pid : Nat) (r : Spawn_Result) :
    ∃ tail,
      (despawn_listeners_fire s pid r).resolutions = s.resolutions ++ tail ∧
      (∀ x ∈ tail, ∃ f ∈ s.despawn_listeners, f.1 = pid ∧ x.1 = f.2) ∧
      (despawn_listeners_fire s pid r).registry = s.registry ∧
      (despawn_listeners_fire s pid r).closed_pids = s.closed_pids ∧
      (despawn_listeners_fire s pid r).closed_prom = s.closed_prom ∧
      (despawn_listeners_fire s pid r).despawn_listeners = s.despawn_listeners ∧
      (despawn_listeners_fire s pid r).spawned_pids = s.spawned_pids ∧
      (despawn_listeners_fire s pid r).next_prom = s.next_prom ∧
      (despawn_listeners_fire s pid r).next_pid = s.next_pid := by
  obtain ⟨tail, t1, t2, t3, t4, t5, t6, t7, t8⟩ :=
    resolve_fold_spec r (s.despawn_listeners.filter (fun e => e.1 = pid)) s
  refine ⟨tail, t1, ?_, t3, t4, t5, t6, t7, t8,
    resolve_fold_next_pid r (s.despawn_listeners.filter (fun e => e.1 = pid)) s⟩
  intro x hx
  obtain ⟨f, hf, hx2⟩ := t2 x hx
  have hf2 := List.mem_filter.1 hf
  exact ⟨f, hf2.1, by simpa using hf2.2, hx2⟩

/-- Frame behaviour of the spawn-time close listener, together with what it
may append to the resolutions. -/
theorem spawn_close_listener_spec (s : PState) (pid : Nat) (r : Spawn_Result) :
    ∃ tail0,
      (spawn_close_listener s pid r).resolutions = s.resolutions ++ tail0 ∧
      (∀ x ∈ tail0, ∃ qv, assoc s.closed_prom pid = some qv ∧ x.1 = qv) ∧
      (spawn_close_listener s pid r).registry = set_delete s.registry pid ∧
      (spawn_close_listener s pid r).closed_pids = s.closed_pids ∧
      (spawn_close_listener s pid r).closed_prom = s.closed_prom ∧
      (spawn_close_listener s pid r).despawn_listeners = s.despawn_listeners ∧
      (spawn_close_listener s pid r).spawned_pids = s.spawned_pids ∧
      (spawn_close_listener s pid r).next_prom = s.next_prom ∧
      (spawn_close_listener s pid r).next_pid = s.next_pid := by
  have hcp : (unregister_global_spawn s pid).closed_prom = s.closed_prom := rfl
  have hrs : (unregister_global_spawn s pid).resolutions = s.resolutions := rfl
  have hrg : (unregister_global_spawn s pid).registry = set_delete s.registry pid := rfl
  simp only [spawn_close_listener, hcp]
  cases hq : assoc s.closed_prom pid with
  | none => exact ⟨[], by simp [hrs], by simp, rfl, rfl, rfl, rfl, rfl, rfl, rfl⟩
  | some q =>
      have hfr := resolve_promise_frame (unregister_global_spawn s pid) q r
      rcases resolve_promise_resolutions (unregister_global_spawn s pid) q r with hres | hres
      · exact ⟨[], by simpa [hrs] using hres, by simp, hfr.1, hfr.2.1, hfr.2.2.1,
          hfr.2.2.2.1, hfr.2.2.2.2.1, hfr.2.2.2.2.2.1, hfr.2.2.2.2.2.2⟩
      · refine ⟨[(q, (r, set_delete s.registry pid))], by simpa [hrs, hrg] using hres, ?_,
          hfr.1, hfr.2.1, hfr.2.2.1, hfr.2.2.2.1, hfr.2.2.2.2.1,
          hfr.2.2.2.2.2.1, hfr.2.2.2.2.2.2⟩
        intro x hx
        simp only [List.mem_singleton] at hx
        exact ⟨q, rfl, by simp [hx]⟩

/-- When the `closed` promise is still pending, the spawn-time close
listener resolves it with the result and a registry snapshot from which the
pid has already been deleted. -/
theorem spawn_close_listener_resolves (s : PState) (pid q : Nat) (r : Spawn_Result)
    (hq : assoc s.closed_prom pid = some q)
    (hp : assoc s.resolutions q = none) :
    (spawn_close_listener s pid r).resolutions =
      s.resolutions ++ [(q, (r, set_delete s.registry pid))] := by
  have hcp : (unregister_global_spawn s pid).closed_prom = s.closed_prom := rfl
  have hrs : (unregister_global_spawn s pid).resolutions = s.resolutions := rfl
  have hrg : (unregister_global_spawn s pid).registry = set_delete s.registry pid := rfl
  simp only [spawn_close_listener, hcp, hq]
  have hnr : ¬ isResolved (unregister_global_spawn s pid) q := by
    simp [isResolved, hrs, hp]
  simp [resolve_promise, hnr, hrs, hrg]

/-- C4.  When the OS close event fires for a spawned, not-yet-closed pid
whose `closed` promise is still pending, the listener installed at spawn
time unregisters the handle first and only then resolves `closed`: the
registry snapshot recorded at the moment of resolution is the registry with
the pid already deleted, so the handle is out of the registry before any
await on `closed` can observe resolution.  When the exit code is 0 the
resolved Outcome is a Success. -/
theorem close_unregisters_before_closed_resolves
    (s : PState) (pid q : Nat) (code : ExitCode) (sig : Sig)
    (hs : pid ∈ s.spawned_pids) (hc : pid ∉ s.closed_pids)
    (hq : assoc s.closed_prom pid = some q)
    (hp : assoc s.resolutions q = none) :
    assoc (proc_close s pid code sig).resolutions q =
      some (to_spawn_result code sig, set_delete s.registry pid) ∧
    pid ∉ set_delete s.registry pid ∧
    (code = some 0 → (to_spawn_result code sig).ok = true) := by
  refine ⟨?_, not_mem_set_delete_self, ?_⟩
  · have hcond : pid ∈ s.spawned_pids ∧ pid ∉ s.closed_pids := ⟨hs, hc⟩
    simp only [proc_close, if_pos hcond]
    set r := to_spawn_result code sig with hr
    obtain ⟨tail, t1, t2, _, _, _, _, _, _, _⟩ :=
      despawn_listeners_fire_spec (spawn_close_listener s pid r) pid r
    show assoc (despawn_listeners_fire (spawn_close_listener s pid r) pid r).resolutions q
        = some (r, set_delete s.registry pid)
    rw [t1, spawn_close_listener_resolves s pid q r hq hp]
    rw [List.append_assoc, assoc_append_of_none _ hp]
    exact assoc_append_of_some tail (by simp [assoc])
  · intro h0
    subst h0
    rfl

/-- C4, witness: one spawn, then a close with exit code 0. -/
theorem close_unregisters_before_closed_resolves_witness :
    (0 ∈ (prun pinit [.spawnE]).spawned_pids) ∧
    (0 ∉ (prun pinit [.spawnE]).closed_pids) ∧
    (assoc (prun pinit [.spawnE]).closed_prom 0 = some 0) ∧
    (assoc (prun pinit [.spawnE]).resolutions 0 = none) ∧
    (assoc (proc_close (prun pinit [.spawnE]) 0 (some 0) none).resolutions 0 =
       some (to_spawn_result (some 0) none, set_delete (prun pinit [.spawnE]).registry 0) ∧
     0 ∉ set_delete (prun pinit [.spawnE]).registry 0 ∧
     ((some 0 : ExitCode) = some 0 → (to_spawn_result (some 0) none).ok = true)) :=
  ⟨by decide, by decide, by decide, by decide,
   close_unregisters_before_closed_resolves (prun pinit [.spawnE]) 0 0 (some 0) none
     (by decide) (by decide) (by decide) (by decide)⟩

theorem assoc_isSome_mem {β : Type} {l : List (Nat × β)} {k : Nat}
    (h : (assoc l k).isSome = true) : ∃ x ∈ l, x.1 = k := by
  cases hv : assoc l k with
  | none => rw [hv] at h; simp at h
  | some v => exact ⟨(k, v), assoc_mem hv, rfl⟩

/-- Reachability invariant of the spawn / registry layer. -/
structure Inv (s : PState) : Prop where
  reg_iff : ∀ p : Nat, p ∈ s.registry ↔ (p ∈ s.spawned_pids ∧ p ∉ s.closed_pids)
  closed_sub : ∀ p ∈ s.closed_pids, p ∈ s.spawned_pids
  pid_lt : ∀ p ∈ s.spawned_pids, p < s.next_pid
  res_lt : ∀ e ∈ s.resolutions, e.1 < s.next_prom
  cp_lt : ∀ e ∈ s.closed_prom, e.2 < s.next_prom
  dl_lt : ∀ e ∈ s.despawn_listeners, e.2 < s.next_prom
  cp_dl : ∀ e ∈ s.closed_prom, ∀ f ∈ s.despawn_listeners, e.2 ≠ f.2
  dl_inj : ∀ e ∈ s.despawn_listeners, ∀ f ∈ s.despawn_listeners, e.2 = f.2 → e.1 = f.1
  dl_res : ∀ e ∈ s.despawn_listeners, isResolved s e.2 = true → e.1 ∈ s.closed_pids

theorem inv_pinit : Inv pinit := by
  constructor <;> simp [pinit, isResolved, assoc]

theorem inv_spawn {s : PState} (hs : Inv s) : Inv (spawn_process s).1 := by
  have hnot : s.next_pid ∉ s.spawned_pids := fun h => absurd (hs.pid_lt _ h) (lt_irrefl _)
  have hnreg : s.next_pid ∉ s.registry := fun h => hnot ((hs.reg_iff _).1 h).1
  have hform : (spawn_process s).1 =
      { s with next_pid := s.next_pid + 1, next_prom := s.next_prom + 1,
               spawned_pids := s.spawned_pids ++ [s.next_pid],
               closed_prom := s.closed_prom ++ [(s.next_pid, s.next_prom)],
               registry := s.registry ++ [s.next_pid] } := by
    simp [spawn_process, register_global_spawn, set_add, hnreg]
  rw [hform]
  constructor
  · intro p
    simp only [List.mem_append, List.mem_singleton]
    by_cases hp : p = s.next_pid
    · subst hp
      have hcl : s.next_pid ∉ s.closed_pids := fun h => hnot (hs.closed_sub _ h)
      simp [hnreg, hcl, hnot]
    · simpa [hp] using hs.reg_iff p
  · intro p hp
    simp only [List.mem_append]
    exact Or.inl (hs.closed_sub p hp)
  · intro p hp
    rcases List.mem_append.1 hp with h | h
    · exact Nat.lt_succ_of_lt (hs.pid_lt p h)
    · simp at h; simp [h]
  · intro e he
    exact Nat.lt_succ_of_lt (hs.res_lt e he)
  · intro e he
    rcases List.mem_append.1 he with h | h
    · exact Nat.lt_succ_of_lt (hs.cp_lt e h)
    · simp at h; simp [h]
  · intro e he
    exact Nat.lt_succ_of_lt (hs.dl_lt e he)
  · intro e he f hf
    rcases List.mem_append.1 he with h | h
    · exact hs.cp_dl e h f hf
    · simp only [List.mem_singleton] at h
      subst h
      have hd := hs.dl_lt f hf
      show s.next_prom ≠ f.2
      omega
  · intro e he f hf
    exact hs.dl_inj e he f hf
  · intro e he hr
    exact hs.dl_res e he hr

theorem proc_close_spec (s : PState) (pid : Nat) (code : ExitCode) (sig : Sig)
    (h : pid ∈ s.spawned_pids ∧ pid ∉ s.closed_pids) :
    ∃ tail,
      (proc_close s pid code sig).registry = set_delete s.registry pid ∧
      (proc_close s pid code sig).spawned_pids = s.spawned_pids ∧
      (proc_close s pid code sig).closed_pids = s.closed_pids ++ [pid] ∧
      (proc_close s pid code sig).closed_prom = s.closed_prom ∧
      (proc_close s pid code sig).despawn_listeners = s.despawn_listeners ∧
      (proc_close s pid code sig).next_prom = s.next_prom ∧
      (proc_close s pid code sig).next_pid = s.next_pid ∧
      (proc_close s pid code sig).resolutions = s.resolutions ++ tail ∧
      ∀ x ∈ tail, (∃ qv, assoc s.closed_prom pid = some qv ∧ x.1 = qv) ∨
                  (∃ f ∈ s.despawn_listeners, f.1 = pid ∧ x.1 = f.2) := by
  simp only [proc_close, if_pos h]
  obtain ⟨tail0, a1, a2, a3, a4, a5, a6, a7, a8, a9⟩ :=
    spawn_close_listener_spec s pid (to_spawn_result code sig)
  obtain ⟨tail1, b1, b2, b3, b4, b5, b6, b7, b8, b9⟩ :=
    despawn_listeners_fire_spec (spawn_close_listener s pid (to_spawn_result code sig)) pid
      (to_spawn_result code sig)
  refine ⟨tail0 ++ tail1, ?_, ?_, ?_, ?_, ?_, ?_, ?_, ?_, ?_⟩
  · exact b3.trans a3
  · exact b7.trans a7
  · show (despawn_listeners_fire (spawn_close_listener s pid (to_spawn_result code sig)) pid
        (to_spawn_result code sig)).closed_pids ++ [pid] = s.closed_pids ++ [pid]
    rw [b4, a4]
  · exact b5.trans a5
  · exact b6.trans a6
  · exact b8.trans a8
  · exact b9.trans a9
  · show (despawn_listeners_fire (spawn_close_listener s pid (to_spawn_result code sig)) pid
        (to_spawn_result code sig)).resolutions = s.resolutions ++ (tail0 ++ tail1)
    rw [b1, a1, List.append_assoc]
  · intro x hx
    rcases List.mem_append.1 hx with hx | hx
    · exact Or.inl (a2 x hx)
    · obtain ⟨f, hf, hfp, hk⟩ := b2 x hx
      rw [a6] at hf
      exact Or.inr ⟨f, hf, hfp, hk⟩

theorem inv_proc_close {s : PState} (hs : Inv s) (pid : Nat) (code : ExitCode)
    (sig : Sig) : Inv (proc_close s pid code sig) := by
  by_cases h : pid ∈ s.spawned_pids ∧ pid ∉ s.closed_pids
  · obtain ⟨tail, p1, p2, p3, p4, p5, p6, p7, p8, p9⟩ := proc_close_spec s pid code sig h
    constructor
    · intro x
      rw [p1, p2, p3, mem_set_delete, hs.reg_iff x]
      simp only [List.mem_append, List.mem_singleton]
      constructor
      · rintro ⟨⟨hsp, hcl⟩, hne⟩
        exact ⟨hsp, by simp [hcl, hne]⟩
      · rintro ⟨hsp, hncl⟩
        simp only [not_or] at hncl
        exact ⟨⟨hsp, hncl.1⟩, hncl.2⟩
    · intro p hp
      rw [p3] at hp
      rw [p2]
      rcases List.mem_append.1 hp with h2 | h2
      · exact hs.closed_sub p h2
      · simp at h2; subst h2; exact h.1
    · intro p hp
      rw [p2] at hp
      rw [p7]
      exact hs.pid_lt p hp
    · intro e he
      rw [p8] at he
      rw [p6]
      rcases List.mem_append.1 he with h2 | h2
      · exact hs.res_lt e h2
      · rcases p9 e h2 with ⟨qv, hqv, hkey⟩ | ⟨f, hf, _, hkey⟩
        · have := hs.cp_lt (pid, qv) (assoc_mem hqv)
          simpa [hkey] using this
        · have := hs.dl_lt f hf
          simpa [hkey] using this
    · intro e he
      rw [p4] at he
      rw [p6]
      exact hs.cp_lt e he
    · intro e he
      rw [p5] at he
      rw [p6]
      exact hs.dl_lt e he
    · intro e he f hf
      rw [p4] at he
      rw [p5] at hf
      exact hs.cp_dl e he f hf
    · intro e he f hf
      rw [p5] at he hf
      exact hs.dl_inj e he f hf
    · intro e he hr
      rw [p5] at he
      rw [p3]
      simp only [List.mem_append, List.mem_singleton]
      unfold isResolved at hr
      rw [p8] at hr
      cases hh : assoc s.resolutions e.2 with
      | some v =>
          exact Or.inl (hs.dl_res e he (by simp [isResolved, hh]))
      | none =>
          rw [assoc_append_of_none _ hh] at hr
          obtain ⟨x, hx, hxk⟩ := assoc_isSome_mem hr
          rcases p9 x hx with ⟨qv, hqv, hkey⟩ | ⟨f, hf, hfpid, hkey⟩
          · exfalso
            exact hs.cp_dl (pid, qv) (assoc_mem hqv) e he (by simp [← hkey, hxk])
          · right
            rw [hs.dl_inj e he f hf (by rw [← hxk, hkey])]
            exact hfpid
  · simpa [proc_close, if_neg h] using hs

theorem inv_despawnCall {s : PState} (hs : Inv s) (pid : Nat) :
    Inv (despawnCall s pid).1 := by
  constructor
  · exact hs.reg_iff
  · exact hs.closed_sub
  · exact hs.pid_lt
  · intro e he
    exact Nat.lt_succ_of_lt (hs.res_lt e he)
  · intro e he
    exact Nat.lt_succ_of_lt (hs.cp_lt e he)
  · intro e he
    rcases List.mem_append.1 he with h | h
    · exact Nat.lt_succ_of_lt (hs.dl_lt e h)
    · simp only [List.mem_singleton] at h
      subst h
      exact Nat.lt_succ_self _
  · intro e he f hf
    rcases List.mem_append.1 hf with h | h
    · exact hs.cp_dl e he f h
    · simp only [List.mem_singleton] at h
      subst h
      have := hs.cp_lt e he
      show e.2 ≠ s.next_prom
      omega
  · intro e he f hf
    rcases List.mem_append.1 he with h1 | h1 <;> rcases List.mem_append.1 hf with h2 | h2
    · exact hs.dl_inj e h1 f h2
    · simp only [List.mem_singleton] at h2
      subst h2
      have := hs.dl_lt e h1
      intro hc
      exact absurd hc (by show e.2 ≠ s.next_prom; omega)
    · simp only [List.mem_singleton] at h1
      subst h1
      have := hs.dl_lt f h2
      intro hc
      exact absurd hc.symm (by show f.2 ≠ s.next_prom; omega)
    · simp only [List.mem_singleton] at h1 h2
      subst h1; subst h2
      intro _; rfl
  · intro e he hr
    have hres : isResolved (despawnCall s pid).1 e.2 = isResolved s e.2 := rfl
    rw [hres] at hr
    rcases List.mem_append.1 he with h | h
    · exact hs.dl_res e h hr
    · simp only [List.mem_singleton] at h
      subst h
      exfalso
      unfold isResolved at hr
      have : assoc s.resolutions s.next_prom = none :=
        assoc_none_of_forall fun x hx => by
          have := hs.res_lt x hx
          omega
      rw [this] at hr
      simp at hr

theorem despawn_all_state :
    ∀ (l : List Nat) (t : PState) (acc : List Nat),
      (l.foldl (fun (a : PState × List Nat) pid =>
          let r := despawnCall a.1 pid
          (r.1, a.2 ++ [r.2])) (t, acc)).1
        = l.foldl (fun t pid => (despawnCall t pid).1) t := by
  intro l
  induction l with
  | nil => intro t acc; rfl
  | cons pid rest ih =>
      intro t acc
      simp only [List.foldl_cons]
      exact ih (despawnCall t pid).1 (acc ++ [(despawnCall t pid).2])

theorem inv_despawn_fold {l : List Nat} :
    ∀ {t : PState}, Inv t → Inv (l.foldl (fun t pid => (despawnCall t pid).1) t) := by
  induction l with
  | nil => intro t ht; exact ht
  | cons pid rest ih =>
      intro t ht
      simp only [List.foldl_cons]
      exact ih (inv_despawnCall ht pid)

theorem inv_pstep {s : PState} (hs : Inv s) (e : PEvent) : Inv (pstep s e) := by
  cases e with
  | spawnE => exact inv_spawn hs
  | procCloseE pid code sig => exact inv_proc_close hs pid code sig
  | despawnE pid =>
      by_cases h : pid ∈ s.spawned_pids
      · simpa [pstep, h] using inv_despawnCall hs pid
      · simpa [pstep, h] using hs
  | despawnAllE =>
      show Inv (despawn_all s).1
      unfold despawn_all
      rw [despawn_all_state s.registry s []]
      exact inv_despawn_fold hs

theorem inv_prun_of : ∀ (es : List PEvent) (s : PState), Inv s → Inv (prun s es) := by
  intro es
  induction es with
  | nil => intro s hs; exact hs
  | cons e rest ih =>
      intro s hs
      exact ih (pstep s e) (inv_pstep hs e)

theorem inv_prun (es : List PEvent) : Inv (prun pinit es) :=
  inv_prun_of es pinit inv_pinit

/-- C5.  At every reachable state of the spawn / registry layer, a handle
is in the global registry exactly when it has been spawned by
`spawn_process` and its OS close event has not yet been reported. -/
theorem registry_iff_spawned_not_closed :
    ∀ (es : List PEvent) (pid : Nat),
      pid ∈ (prun pinit es).registry ↔
        (pid ∈ (prun pinit es).spawned_pids ∧ pid ∉ (prun pinit es).closed_pids) :=
  fun es pid => (inv_prun es).reg_iff pid

theorem despawn_all_fold_spec :
    ∀ (l : List Nat) (t : PState) (acc : List Nat),
      (l.foldl (fun (a : PState × List Nat) pid =>
          let r := despawnCall a.1 pid
          (r.1, a.2 ++ [r.2])) (t, acc)).2.length = acc.length + l.length ∧
      (∀ p ∈ acc,
        p ∈ (l.foldl (fun (a : PState × List Nat) pid =>
          let r := despawnCall a.1 pid
          (r.1, a.2 ++ [r.2])) (t, acc)).2) ∧
      (∀ e ∈ t.despawn_listeners,
        e ∈ (l.foldl (fun (a : PState × List Nat) pid =>
          let r := despawnCall a.1 pid
          (r.1, a.2 ++ [r.2])) (t, acc)).1.despawn_listeners) ∧
      (∀ pid ∈ l, ∃ p,
        p ∈ (l.foldl (fun (a : PState × List Nat) pid =>
          let r := despawnCall a.1 pid
          (r.1, a.2 ++ [r.2])) (t, acc)).2 ∧
        (pid, p) ∈ (l.foldl (fun (a : PState × List Nat) pid =>
          let r := despawnCall a.1 pid
          (r.1, a.2 ++ [r.2])) (t, acc)).1.despawn_listeners) := by
  intro l
  induction l with
  | nil =>
      intro t acc
      exact ⟨by simp, fun p hp => hp, fun e he => he, by simp⟩
  | cons x rest ih =>
      intro t acc
      obtain ⟨i1, i2, i3, i4⟩ := ih (despawnCall t x).1 (acc ++ [(despawnCall t x).2])
      have hdl : (despawnCall t x).1.despawn_listeners
          = t.despawn_listeners ++ [(x, (despawnCall t x).2)] := rfl
      refine ⟨?_, ?_, ?_, ?_⟩
      · simp only [List.foldl_cons]
        rw [i1]
        simp
        omega
      · intro p hp
        simp only [List.foldl_cons]
        exact i2 p (by simp [hp])
      · intro e he
        simp only [List.foldl_cons]
        exact i3 e (by rw [hdl]; exact List.mem_append.2 (Or.inl he))
      · intro y hy
        rcases List.mem_cons.1 hy with rfl | hy
        · refine ⟨(despawnCall t y).2, ?_, ?_⟩
          · simp only [List.foldl_cons]
            exact i2 _ (by simp)
          · simp only [List.foldl_cons]
            exact i3 _ (by rw [hdl]; simp)
        · obtain ⟨p, hp1, hp2⟩ := i4 y hy
          exact ⟨p, by simpa only [List.foldl_cons] using hp1,
                 by simpa only [List.foldl_cons] using hp2⟩

theorem pstep_dl_closed_mono (s : PState) (ev : PEvent) :
    (∀ e ∈ s.despawn_listeners, e ∈ (pstep s ev).despawn_listeners) ∧
    (∀ p ∈ s.closed_pids, p ∈ (pstep s ev).closed_pids) := by
  cases ev with
  | spawnE =>
      constructor
      · intro e he; exact he
      · intro p hp; exact hp
  | procCloseE pid code sig =>
      by_cases h : pid ∈ s.spawned_pids ∧ pid ∉ s.closed_pids
      · obtain ⟨tail, _, _, p3, _, p5, _, _, _, _⟩ := proc_close_spec s pid code sig h
        constructor
        · intro e he
          show e ∈ (proc_close s pid code sig).despawn_listeners
          rw [p5]; exact he
        · intro p hp
          show p ∈ (proc_close s pid code sig).closed_pids
          rw [p3]; exact List.mem_append.2 (Or.inl hp)
      · constructor
        · intro e he
          show e ∈ (proc_close s pid code sig).despawn_listeners
          rw [proc_close, if_neg h]; exact he
        · intro p hp
          show p ∈ (proc_close s pid code sig).closed_pids
          rw [proc_close, if_neg h]; exact hp
  | despawnE pid =>
      by_cases h : pid ∈ s.spawned_pids
      · constructor
        · intro e he
          simp only [pstep, if_pos h]
          show e ∈ s.despawn_listeners ++ [(pid, s.next_prom)]
          exact List.mem_append.2 (Or.inl he)
        · intro p hp
          simpa [pstep, if_pos h] using hp
      · constructor
        · intro e he; simpa [pstep, if_neg h] using he
        · intro p hp; simpa [pstep, if_neg h] using hp
  | despawnAllE =>
      show (∀ e ∈ s.despawn_listeners, e ∈ (despawn_all s).1.despawn_listeners) ∧
        (∀ p ∈ s.closed_pids, p ∈ (despawn_all s).1.closed_pids)
      constructor
      · intro e he
        exact (despawn_all_fold_spec s.registry s []).2.2.1 e he
      · intro p hp
        have : ∀ (l : List Nat) (t : PState),
            t.closed_pids = s.closed_pids →
            (l.foldl (fun t pid => (despawnCall t pid).1) t).closed_pids
              = s.closed_pids := by
          intro l
          induction l with
          | nil => intro t ht; exact ht
          | cons x rest ih =>
              intro t ht
              simp only [List.foldl_cons]
              exact ih (despawnCall t x).1 ht
        unfold despawn_all
        rw [despawn_all_state s.registry s [], this s.registry s rfl]
        exact hp

theorem prun_dl_closed_mono (es : List PEvent) :
    ∀ s : PState,
      (∀ e ∈ s.despawn_listeners, e ∈ (prun s es).despawn_listeners) ∧
      (∀ p ∈ s.closed_pids, p ∈ (prun s es).closed_pids) := by
  induction es with
  | nil => intro s; exact ⟨fun e he => he, fun p hp => hp⟩
  | cons ev rest ih =>
      intro s
      obtain ⟨m1, m2⟩ := pstep_dl_closed_mono s ev
      obtain ⟨n1, n2⟩ := ih (pstep s ev)
      exact ⟨fun e he => n1 e (m1 e he), fun p hp => n2 p (m2 p hp)⟩

/-- C6.  `despawn_all` takes the registry snapshot at the call: on an empty
registry it returns an empty sequence whose `Promise.all` aggregate is
immediately resolved; in general the result sequence has exactly one entry
per registered handle (regardless of individual outcomes); and whenever
every collected promise has resolved, every handle that was registered at
the call has reported OS close — the aggregate cannot resolve before all N
individual closes. -/
theorem despawn_all_resolution (es es2 : List PEvent) :
    ((prun pinit es).registry = [] →
       (despawn_all (prun pinit es)).2 = [] ∧
       ((despawn_all (prun pinit es)).2.all
         (fun p => isResolved (despawn_all (prun pinit es)).1 p)) = true) ∧
    ((despawn_all (prun pinit es)).2.length = (prun pinit es).registry.length) ∧
    ((∀ p ∈ (despawn_all (prun pinit es)).2,
        isResolved (prun (despawn_all (prun pinit es)).1 es2) p = true) →
      ∀ pid ∈ (prun pinit es).registry,
        pid ∈ (prun (despawn_all (prun pinit es)).1 es2).closed_pids) := by
  set s := prun pinit es with hsdef
  refine ⟨?_, ?_, ?_⟩
  · intro hreg
    unfold despawn_all
    rw [hreg]
    exact ⟨rfl, rfl⟩
  · have := (despawn_all_fold_spec s.registry s []).1
    unfold despawn_all
    rw [this]
    simp
  · intro hall pid hpid
    obtain ⟨p, hp1, hp2⟩ := (despawn_all_fold_spec s.registry s []).2.2.2 pid hpid
    have hdl2 : (pid, p) ∈ (prun (despawn_all s).1 es2).despawn_listeners :=
      (prun_dl_closed_mono es2 (despawn_all s).1).1 (pid, p) hp2
    have hres : isResolved (prun (despawn_all s).1 es2) p = true := hall p hp1
    have hinv : Inv (prun (despawn_all s).1 es2) := by
      have h1 : Inv s := inv_prun es
      have h2 : Inv (despawn_all s).1 := by
        unfold despawn_all
        rw [despawn_all_state s.registry s []]
        exact inv_despawn_fold h1
      exact inv_prun_of es2 (despawn_all s).1 h2
    exact hinv.dl_res (pid, p) hdl2 hres

/-- C6, witness: two spawns, despawn_all, then both close (one passing, one
failing); all collected promises resolve and both pids are closed. -/
theorem despawn_all_resolution_witness :
    ((prun pinit [PEvent.spawnE, PEvent.spawnE]).registry = [] →
       (despawn_all (prun pinit [PEvent.spawnE, PEvent.spawnE])).2 = [] ∧
       ((despawn_all (prun pinit [PEvent.spawnE, PEvent.spawnE])).2.all
         (fun p => isResolved (despawn_all (prun pinit [PEvent.spawnE, PEvent.spawnE])).1 p))
           = true) ∧
    ((despawn_all (prun pinit [PEvent.spawnE, PEvent.spawnE])).2.length
       = (prun pinit [PEvent.spawnE, PEvent.spawnE]).registry.length) ∧
    (0 ∈ (prun (despawn_all (prun pinit [PEvent.spawnE, PEvent.spawnE])).1
            [PEvent.procCloseE 0 (some 0) none,
             PEvent.procCloseE 1 (some 1) (some "SIGTERM")]).closed_pids ∧
     1 ∈ (prun (despawn_all (prun pinit [PEvent.spawnE, PEvent.spawnE])).1
            [PEvent.procCloseE 0 (some 0) none,
             PEvent.procCloseE 1 (some 1) (some "SIGTERM")]).closed_pids) := by
  refine ⟨(despawn_all_resolution [PEvent.spawnE, PEvent.spawnE]
            [PEvent.procCloseE 0 (some 0) none,
             PEvent.procCloseE 1 (some 1) (some "SIGTERM")]).1,
          (despawn_all_resolution [PEvent.spawnE, PEvent.spawnE]
            [PEvent.procCloseE 0 (some 0) none,
             PEvent.procCloseE 1 (some 1) (some "SIGTERM")]).2.1, ?_, ?_⟩
  · exact (despawn_all_resolution [PEvent.spawnE, PEvent.spawnE]
      [PEvent.procCloseE 0 (some 0) none,
       PEvent.procCloseE 1 (some 1) (some "SIGTERM")]).2.2 (by decide) 0 (by decide)
  · exact (despawn_all_resolution [PEvent.spawnE, PEvent.spawnE]
      [PEvent.procCloseE 0 (some 0) none,
       PEvent.procCloseE 1 (some 1) (some "SIGTERM")]).2.2 (by decide) 1 (by decide)

theorem never_resolve_despawnCall (t : PState) (pid dp x : Nat)
    (h1 : pid ∈ t.closed_pids) (h2 : isResolved t dp = false)
    (h3 : ∀ e ∈ t.closed_prom, e.2 ≠ dp)
    (h4 : ∀ e ∈ t.despawn_listeners, e.2 = dp → e.1 = pid)
    (h5 : dp < t.next_prom) :
    pid ∈ (despawnCall t x).1.closed_pids ∧
    isResolved (despawnCall t x).1 dp = false ∧
    (∀ e ∈ (despawnCall t x).1.closed_prom, e.2 ≠ dp) ∧
    (∀ e ∈ (despawnCall t x).1.despawn_listeners, e.2 = dp → e.1 = pid) ∧
    dp < (despawnCall t x).1.next_prom := by
  refine ⟨h1, h2, h3, ?_, Nat.lt_succ_of_lt h5⟩
  intro e he
  rcases List.mem_append.1 he with h | h
  · exact h4 e h
  · simp only [List.mem_singleton] at h
    subst h
    intro hc
    exfalso
    exact absurd hc (by show t.next_prom ≠ dp; omega)

theorem never_resolve_step (t : PState) (pid dp : Nat) (ev : PEvent)
    (h1 : pid ∈ t.closed_pids) (h2 : isResolved t dp = false)
    (h3 : ∀ e ∈ t.closed_prom, e.2 ≠ dp)
    (h4 : ∀ e ∈ t.despawn_listeners, e.2 = dp → e.1 = pid)
    (h5 : dp < t.next_prom) :
    pid ∈ (pstep t ev).closed_pids ∧
    isResolved (pstep t ev) dp = false ∧
    (∀ e ∈ (pstep t ev).closed_prom, e.2 ≠ dp) ∧
    (∀ e ∈ (pstep t ev).despawn_listeners, e.2 = dp → e.1 = pid) ∧
    dp < (pstep t ev).next_prom := by
  cases ev with
  | spawnE =>
      refine ⟨h1, h2, ?_, h4, Nat.lt_succ_of_lt h5⟩
      intro e he
      rcases List.mem_append.1 he with h | h
      · exact h3 e h
      · simp only [List.mem_singleton] at h
        subst h
        show t.next_prom ≠ dp
        omega
  | procCloseE pid2 code sig =>
      have hps : pstep t (PEvent.procCloseE pid2 code sig) = proc_close t pid2 code sig := rfl
      rw [hps]
      by_cases h : pid2 ∈ t.spawned_pids ∧ pid2 ∉ t.closed_pids
      · have hne : pid2 ≠ pid := fun e => h.2 (e ▸ h1)
        obtain ⟨tail, _, _, p3, p4, p5, p6, _, p8, p9⟩ := proc_close_spec t pid2 code sig h
        refine ⟨by rw [p3]; exact List.mem_append.2 (Or.inl h1), ?_, ?_, ?_, ?_⟩
        · unfold isResolved at h2 ⊢
          rw [p8]
          have hnone : assoc t.resolutions dp = none := by
            cases hv : assoc t.resolutions dp with
            | none => rfl
            | some v => rw [hv] at h2; simp at h2
          rw [assoc_append_of_none _ hnone]
          rw [assoc_none_of_forall]
          · rfl
          · intro x hx
            rcases p9 x hx with ⟨qv, hqv, hkey⟩ | ⟨f, hf, hfp, hkey⟩
            · rw [hkey]
              exact h3 (pid2, qv) (assoc_mem hqv)
            · rw [hkey]
              intro hc
              exact hne (by rw [← hfp]; exact h4 f hf hc)
        · intro e he
          rw [p4] at he
          exact h3 e he
        · intro e he
          rw [p5] at he
          exact h4 e he
        · rw [p6]
          exact h5
      · rw [proc_close, if_neg h]
        exact ⟨h1, h2, h3, h4, h5⟩
  | despawnE pid2 =>
      by_cases h : pid2 ∈ t.spawned_pids
      · have := never_resolve_despawnCall t pid dp pid2 h1 h2 h3 h4 h5
        simpa [pstep, if_pos h] using this
      · simp only [pstep, if_neg h]
        exact ⟨h1, h2, h3, h4, h5⟩
  | despawnAllE =>
      have key : ∀ (l : List Nat) (u : PState),
          pid ∈ u.closed_pids → isResolved u dp = false →
          (∀ e ∈ u.closed_prom, e.2 ≠ dp) →
          (∀ e ∈ u.despawn_listeners, e.2 = dp → e.1 = pid) →
          dp < u.next_prom →
          pid ∈ (l.foldl (fun v x => (despawnCall v x).1) u).closed_pids ∧
          isResolved (l.foldl (fun v x => (despawnCall v x).1) u) dp = false ∧
          (∀ e ∈ (l.foldl (fun v x => (despawnCall v x).1) u).closed_prom, e.2 ≠ dp) ∧
          (∀ e ∈ (l.foldl (fun v x => (despawnCall v x).1) u).despawn_listeners,
            e.2 = dp → e.1 = pid) ∧
          dp < (l.foldl (fun v x => (despawnCall v x).1) u).next_prom := by
        intro l
        induction l with
        | nil => intro u u1 u2 u3 u4 u5; exact ⟨u1, u2, u3, u4, u5⟩
        | cons x rest ih =>
            intro u u1 u2 u3 u4 u5
            obtain ⟨v1, v2, v3, v4, v5⟩ := never_resolve_despawnCall u pid dp x u1 u2 u3 u4 u5
            simpa only [List.foldl_cons] using ih (despawnCall u x).1 v1 v2 v3 v4 v5
      have hps : pstep t PEvent.despawnAllE = (despawn_all t).1 := rfl
      rw [hps]
      unfold despawn_all
      rw [despawn_all_state t.registry t []]
      exact key t.registry t h1 h2 h3 h4 h5

theorem never_resolve_run (es2 : List PEvent) :
    ∀ (t : PState) (pid dp : Nat),
      pid ∈ t.closed_pids → isResolved t dp = false →
      (∀ e ∈ t.closed_prom, e.2 ≠ dp) →
      (∀ e ∈ t.despawn_listeners, e.2 = dp → e.1 = pid) →
      dp < t.next_prom →
      isResolved (prun t es2) dp = false := by
  induction es2 with
  | nil => intro t pid dp _ h2 _ _ _; exact h2
  | cons ev rest ih =>
      intro t pid dp h1 h2 h3 h4 h5
      obtain ⟨v1, v2, v3, v4, v5⟩ := never_resolve_step t pid dp ev h1 h2 h3 h4 h5
      exact ih (pstep t ev) pid dp v1 v2 v3 v4 v5

/-- C10.  If the OS close event for a child has already fired before
`despawn` is called on it, the promise returned by `despawn` never
resolves: the fresh close listener attached by `despawn` is the only thing
that could resolve it, the close event of a pid fires at most once, and a
dead process emits no further close events, so under every continuation of
the run the promise stays pending. -/
theorem despawn_after_close_never_resolves (es : List PEvent) (pid : Nat)
    (hc : pid ∈ (prun pinit es).closed_pids) :
    ∀ es2 : List PEvent,
      isResolved (prun (despawnCall (prun pinit es) pid).1 es2)
        (despawnCall (prun pinit es) pid).2 = false := by
  intro es2
  set s := prun pinit es with hsdef
  have hinv : Inv s := inv_prun es
  apply never_resolve_run es2 (despawnCall s pid).1 pid s.next_prom
  · exact hc
  · show isResolved (despawnCall s pid).1 s.next_prom = false
    have : isResolved (despawnCall s pid).1 s.next_prom = isResolved s s.next_prom := rfl
    rw [this]
    unfold isResolved
    rw [assoc_none_of_forall fun x hx => by have := hinv.res_lt x hx; omega]
    rfl
  · intro e he
    have := hinv.cp_lt e he
    show e.2 ≠ s.next_prom
    omega
  · intro e he
    rcases List.mem_append.1 he with h | h
    · intro hc2
      exfalso
      have := hinv.dl_lt e h
      omega
    · simp only [List.mem_singleton] at h
      subst h
      intro _
      rfl
  · show s.next_prom < s.next_prom + 1
    exact Nat.lt_succ_self _

/-- C10, witness: spawn pid 0, let it close, then despawn it; after further
unrelated activity the despawn promise is still unresolved. -/
theorem despawn_after_close_never_resolves_witness :
    (0 ∈ (prun pinit [PEvent.spawnE, PEvent.procCloseE 0 (some 0) none]).closed_pids) ∧
    isResolved
      (prun (despawnCall (prun pinit [PEvent.spawnE, PEvent.procCloseE 0 (some 0) none]) 0).1
        [PEvent.spawnE, PEvent.despawnAllE, PEvent.procCloseE 1 (some 0) none])
      (despawnCall (prun pinit [PEvent.spawnE, PEvent.procCloseE 0 (some 0) none]) 0).2
        = false :=
  ⟨by decide,
   despawn_after_close_never_resolves [PEvent.spawnE, PEvent.procCloseE 0 (some 0) none] 0
     (by decide) [PEvent.spawnE, PEvent.despawnAllE, PEvent.procCloseE 1 (some 0) none]⟩

/-- C3, failing execution.  Trace: construct the restartable process (it
spawns pid 0 synchronously; the constructor restart is promise 0 and pid
0's `closed` promise is promise 1), then call `restart()` (its promise is
2; it closes pid 0 and parks the respawn, close's own promise being 3),
then call `kill()` while that transition is in flight (kill's promise is
4), then let pid 0's OS close event fire.  In the resulting microtask
cascade, kill's continuation runs `close()` while the slot is still empty
(a no-op), and only afterwards does the restart continuation respawn a
fresh child (pid 1): the future returned by `kill()` resolves, yet pid 1 is
live and stays in the slot.  This contradicts the claim that once `kill()`
resolves no child of the restartable process is live. -/
theorem kill_during_inflight_restart_leaves_live_child :
    (rrun rinit [REvent.callRestart, REvent.callKill, REvent.procClose 0]).procs = [1] ∧
    isResolvedR (rrun rinit [REvent.callRestart, REvent.callKill, REvent.procClose 0]) 4
      = true ∧
    (rrun rinit [REvent.callRestart, REvent.callKill, REvent.procClose 0]).spawned
      = some (1, 6) := by
  decide

theorem drain_zero (s : RState) : drain 0 s = s := rfl

theorem drain_nil {s : RState} (h : s.queue = []) : ∀ n, drain n s = s := by
  intro n
  cases n with
  | zero => rfl
  | succ m => simp [drain, h]

theorem drain_step {s : RState} {k : RKont} {rest : List RKont}
    (h : s.queue = k :: rest) (n : Nat) :
    drain (n + 1) s = drain n (runKont { s with queue := rest } k) := by
  simp [drain, h]

theorem drain_add (m : Nat) : ∀ (n : Nat) (s : RState),
    drain (m + n) s = drain n (drain m s) := by
  induction m with
  | zero =>
      intro n s
      rw [Nat.zero_add]
      rfl
  | succ m ih =>
      intro n s
      cases hq : s.queue with
      | nil => simp [drain_nil hq]
      | cons k rest =>
          have h1 : m + 1 + n = (m + n) + 1 := by omega
          rw [h1, drain_step hq, drain_step hq, ih]

theorem drain_absorb {s t : RState} {n : Nat} (h : drain n s = t)
    (ht : t.queue = []) {m : Nat} (hnm : n ≤ m) : drain m s = t := by
  have hm : m = n + (m - n) := by omega
  rw [hm, drain_add, h, drain_nil ht]

theorem attachK_pending {s : RState} {p : Nat} {ks : List RKont} {k : RKont}
    (h : promSt s p = some (PromSt.pending ks)) :
    attachK s p k = setProm s p (PromSt.pending (ks ++ [k])) := by
  simp [attachK, h]

theorem attachK_resolved {s : RState} {p : Nat} {k : RKont}
    (h : promSt s p = some PromSt.resolvedP) :
    attachK s p k = { s with queue := s.queue ++ [k] } := by
  simp [attachK, h]

theorem resolveProm_pending {s : RState} {p : Nat} {ks : List RKont}
    (h : promSt s p = some (PromSt.pending ks)) :
    resolveProm s p = { setProm s p PromSt.resolvedP with queue := s.queue ++ ks } := by
  simp [resolveProm, h]
  rfl

theorem resolveProm_resolved {s : RState} {p : Nat}
    (h : promSt s p = some PromSt.resolvedP) : resolveProm s p = s := by
  simp [resolveProm, h]

theorem resolveProm_none {s : RState} {p : Nat}
    (h : promSt s p = none) : resolveProm s p = s := by
  simp [resolveProm, h]

theorem assoc_set_self {l : List (Nat × PromSt)} {p : Nat} {st : PromSt}
    (h : (assoc l p).isSome = true) :
    assoc (set_assoc l p st) p = some st := by
  induction l with
  | nil => simp [assoc] at h
  | cons e t ih =>
      cases e with
      | mk a b =>
          by_cases ha : a = p
          · subst ha
            simp [set_assoc, assoc]
          · simp only [assoc, ha, if_false] at h
            simp only [set_assoc, if_neg ha]
            simpa [assoc, ha] using ih h

theorem assoc_set_other {l : List (Nat × PromSt)} {p q : Nat} {st : PromSt}
    (h : q ≠ p) :
    assoc (set_assoc l p st) q = assoc l q := by
  induction l with
  | nil => rfl
  | cons e t ih =>
      cases e with
      | mk a b =>
          by_cases ha : a = p
          · subst ha
            simp only [set_assoc, if_pos rfl]
            simp only [assoc, if_neg (fun hc : a = q => h hc.symm),
              if_neg (fun hc : a = q => h hc.symm)]
            exact ih
          · simp only [set_assoc, if_neg ha]
            by_cases haq : a = q
            · subst haq
              simp [assoc]
            · simp only [assoc, if_neg haq]
              exact ih

theorem promSt_setProm_self {s : RState} {p : Nat} {st : PromSt}
    (h : (promSt s p).isSome = true) : promSt (setProm s p st) p = some st :=
  assoc_set_self h

theorem promSt_setProm_other {s : RState} {p q : Nat} {st : PromSt}
    (h : q ≠ p) : promSt (setProm s p st) q = promSt s q :=
  assoc_set_other h

theorem set_assoc_keys (p : Nat) (st : PromSt) :
    ∀ l : List (Nat × PromSt),
      (set_assoc l p st).map (fun e => e.1) = l.map (fun e => e.1) := by
  intro l
  induction l with
  | nil => rfl
  | cons e t ih =>
      cases e with
      | mk a b =>
          by_cases ha : a = p
          · subst ha
            simp [set_assoc, ih]
          · simp [set_assoc, ha, ih]

theorem setProm_keys (s : RState) (p : Nat) (st : PromSt) :
    (setProm s p st).proms.map (fun e => e.1) = s.proms.map (fun e => e.1) :=
  set_assoc_keys p st s.proms

theorem setProm_frame (s : RState) (p : Nat) (st : PromSt) :
    (setProm s p st).queue = s.queue ∧
    (setProm s p st).spawned = s.spawned ∧
    (setProm s p st).restarting = s.restarting ∧
    (setProm s p st).procs = s.procs ∧
    (setProm s p st).closed_promR = s.closed_promR ∧
    (setProm s p st).next_pid = s.next_pid ∧
    (setProm s p st).next_prom = s.next_prom ∧
    (setProm s p st).peak = s.peak :=
  ⟨rfl, rfl, rfl, rfl, rfl, rfl, rfl, rfl⟩

theorem all_empty_set_assoc {p : Nat} :
    ∀ l : List (Nat × PromSt), (∀ e ∈ l, reactions_empty e.2) →
      ∀ e ∈ set_assoc l p PromSt.resolvedP, reactions_empty e.2 := by
  intro l
  induction l with
  | nil => intro _ e he; simp [set_assoc] at he
  | cons x t ih =>
      cases x with
      | mk a b =>
          intro h e he
          by_cases ha : a = p
          · subst ha
            simp only [set_assoc, eq_self_iff_true, if_true, List.mem_cons] at he
            rcases he with he | he
            · subst he
              exact Or.inl rfl
            · exact ih (fun f hf => h f (by simp [hf])) e he
          · simp only [set_assoc, if_neg ha, List.mem_cons] at he
            rcases he with he | he
            · subst he
              exact h (a, b) (by simp)
            · exact ih (fun f hf => h f (by simp [hf])) e he

theorem all_empty_setProm {s : RState} {p : Nat}
    (h : ∀ e ∈ s.proms, reactions_empty e.2) :
    ∀ e ∈ (setProm s p PromSt.resolvedP).proms, reactions_empty e.2 :=
  all_empty_set_assoc s.proms h

theorem kontsWeight_resolveKs (ps : List Nat) :
    kontsWeight (ps.map RKont.resolveK) = ps.length := by
  induction ps with
  | nil => rfl
  | cons p t ih =>
      simp only [List.map_cons, kontsWeight, List.sum_cons] at ih ⊢
      rw [ih]
      show kweight (RKont.resolveK p) + t.length = t.length + 1
      rw [show kweight (RKont.resolveK p) = 1 from rfl]
      omega

theorem measureR_ge_queue (s : RState) : kontsWeight s.queue ≤ measureR s :=
  Nat.le_add_right _ _

theorem resolve_block : ∀ (ps : List Nat) (s : RState) (rest : List RKont),
    (∀ e ∈ s.proms, reactions_empty e.2) →
    s.queue = ps.map RKont.resolveK ++ rest →
    ∃ s', drain ps.length s = s' ∧ s'.queue = rest ∧
      (∀ e ∈ s'.proms, reactions_empty e.2) ∧
      s'.spawned = s.spawned ∧ s'.restarting = s.restarting ∧ s'.procs = s.procs ∧
      s'.closed_promR = s.closed_promR ∧ s'.next_pid = s.next_pid ∧
      s'.next_prom = s.next_prom ∧ s'.peak = s.peak ∧
      s'.proms.map (fun e => e.1) = s.proms.map (fun e => e.1) := by
  intro ps
  induction ps with
  | nil =>
      intro s rest hemp hq
      exact ⟨s, rfl, by simpa using hq, hemp, rfl, rfl, rfl, rfl, rfl, rfl, rfl, rfl⟩
  | cons r ps ih =>
      intro s rest hemp hq
      have hq2 : s.queue = RKont.resolveK r :: (ps.map RKont.resolveK ++ rest) := by
        simpa using hq
      have hstep := drain_step hq2 ps.length
      have hlen : (r :: ps).length = ps.length + 1 := rfl
      set s0 : RState := { s with queue := ps.map RKont.resolveK ++ rest } with hs0
      have hrun : runKont s0 (RKont.resolveK r) = resolveProm s0 r := rfl
      have hkeep : promSt s0 r = promSt s r := rfl
      have next : ∃ s1, resolveProm s0 r = s1 ∧
          s1.queue = ps.map RKont.resolveK ++ rest ∧
          (∀ e ∈ s1.proms, reactions_empty e.2) ∧
          s1.spawned = s.spawned ∧ s1.restarting = s.restarting ∧ s1.procs = s.procs ∧
          s1.closed_promR = s.closed_promR ∧ s1.next_pid = s.next_pid ∧
          s1.next_prom = s.next_prom ∧ s1.peak = s.peak ∧
          s1.proms.map (fun e => e.1) = s.proms.map (fun e => e.1) := by
        cases hst : promSt s r with
        | none =>
            exact ⟨s0, resolveProm_none (hkeep.trans hst), rfl, hemp, rfl, rfl, rfl,
              rfl, rfl, rfl, rfl, rfl⟩
        | some st =>
            cases st with
            | resolvedP =>
                exact ⟨s0, resolveProm_resolved (hkeep.trans hst), rfl, hemp, rfl, rfl,
                  rfl, rfl, rfl, rfl, rfl, rfl⟩
            | pending ks =>
                have hks : ks = [] := by
                  have hmem := assoc_mem hst
                  rcases hemp _ hmem with h0 | h0
                  · exact absurd h0 (by simp)
                  · simpa using h0
                subst hks
                refine ⟨setProm s0 r PromSt.resolvedP, ?_, ?_, ?_, rfl, rfl, rfl,
                  rfl, rfl, rfl, rfl, setProm_keys s0 r PromSt.resolvedP⟩
                · rw [resolveProm_pending (hkeep.trans hst)]
                  have : (setProm s0 r PromSt.resolvedP).queue = s0.queue := rfl
                  cases hsp : setProm s0 r PromSt.resolvedP
                  simp_all
                · rfl
                · exact all_empty_setProm hemp
      obtain ⟨s1, e1, q1, emp1, f1, f2, f3, f4, f5, f6, f7, f8⟩ := next
      obtain ⟨s', d2, q2, emp2, g1, g2, g3, g4, g5, g6, g7, g8⟩ := ih s1 rest emp1 q1
      rw [hlen, hstep, hrun, e1, d2]
      exact ⟨s', rfl, q2, emp2, g1.trans f1, g2.trans f2, g3.trans f3, g4.trans f4,
        g5.trans f5, g6.trans f6, g7.trans f7, g8.trans f8⟩

theorem set_assoc_mem {l : List (Nat × PromSt)} {p : Nat} {st : PromSt} {e : Nat × PromSt}
    (h : e ∈ set_assoc l p st) : e = (p, st) ∨ e ∈ l := by
  induction l with
  | nil => simp [set_assoc] at h
  | cons x t ih =>
      cases x with
      | mk a b =>
          by_cases ha : a = p
          · subst ha
            simp only [set_assoc, eq_self_iff_true, if_true, List.mem_cons] at h
            rcases h with h | h
            · exact Or.inl h
            · rcases ih h with h2 | h2
              · exact Or.inl h2
              · exact Or.inr (by simp [h2])
          · simp only [set_assoc, if_neg ha, List.mem_cons] at h
            rcases h with h | h
            · exact Or.inr (by simp [h])
            · rcases ih h with h2 | h2
              · exact Or.inl h2
              · exact Or.inr (by simp [h2])

theorem attachK_frame (s : RState) (p : Nat) (k : RKont) :
    (attachK s p k).spawned = s.spawned ∧
    (attachK s p k).restarting = s.restarting ∧
    (attachK s p k).procs = s.procs ∧
    (attachK s p k).rsignaled = s.rsignaled ∧
    (attachK s p k).closed_promR = s.closed_promR ∧
    (attachK s p k).next_pid = s.next_pid ∧
    (attachK s p k).next_prom = s.next_prom ∧
    (attachK s p k).peak = s.peak := by
  unfold attachK
  split
  · exact ⟨rfl, rfl, rfl, rfl, rfl, rfl, rfl, rfl⟩
  · exact ⟨rfl, rfl, rfl, rfl, rfl, rfl, rfl, rfl⟩
  · exact ⟨rfl, rfl, rfl, rfl, rfl, rfl, rfl, rfl⟩

theorem keys_append_nodup {keys : List Nat} {bound : Nat}
    (hnd : keys.Nodup) (hlt : ∀ k ∈ keys, k < bound) :
    (keys ++ [bound]).Nodup := by
  rw [List.nodup_append]
  refine ⟨hnd, List.nodup_singleton _, ?_⟩
  intro a ha hb
  simp only [List.mem_singleton] at hb
  subst hb
  have := hlt a ha
  omega

theorem restartCall_pathB {s : RState} {x cx : Nat}
    (hre : s.restarting = none) (hsp : s.spawned = some (x, cx)) :
    restartCall s =
      (attachK
        (attachK
          { s with next_prom := s.next_prom + 1 + 1,
                   proms := (s.proms ++ [(s.next_prom, PromSt.pending [])])
                              ++ [(s.next_prom + 1, PromSt.pending [])],
                   restarting := some cx,
                   rsignaled := s.rsignaled ++ [x],
                   spawned := none }
          cx (RKont.closeK (s.next_prom + 1)))
        (s.next_prom + 1) (RKont.restartK s.next_prom), s.next_prom) := by
  simp only [restartCall, hre, hsp, closeCall, fresh_prom]

theorem good_run_restart {s : RState} (hb : RBook s) (hr : ShapeRun s) :
    GoodR (rstep s REvent.callRestart) := by
  obtain ⟨hq, hpk, hnd, hlt, hcpr⟩ := hb
  obtain ⟨x, cx, hsp, hre, hpr, hcpx, hcxst, hemp⟩ := hr
  have hcxmem : (cx, PromSt.pending []) ∈ s.proms := assoc_mem hcxst
  have hcxlt : cx < s.next_prom := hlt _ hcxmem
  have hrc := restartCall_pathB hre hsp
  set S2 : RState :=
    { s with next_prom := s.next_prom + 1 + 1,
             proms := (s.proms ++ [(s.next_prom, PromSt.pending [])])
                        ++ [(s.next_prom + 1, PromSt.pending [])],
             restarting := some cx,
             rsignaled := s.rsignaled ++ [x],
             spawned := none } with hS2
  have hS2cx : promSt S2 cx = some (PromSt.pending []) := by
    show assoc ((s.proms ++ [(s.next_prom, PromSt.pending [])])
        ++ [(s.next_prom + 1, PromSt.pending [])]) cx = some (PromSt.pending [])
    exact assoc_append_of_some _ (assoc_append_of_some _ hcxst)
  have h0 : assoc s.proms (s.next_prom + 1) = none :=
    assoc_none_of_forall fun e he => by have := hlt e he; omega
  have h1 : assoc (s.proms ++ [(s.next_prom, PromSt.pending [])]) (s.next_prom + 1)
      = none := by
    rw [assoc_append_of_none _ h0]
    have : s.next_prom ≠ s.next_prom + 1 := by omega
    simp [assoc, this]
  have hS2cp : promSt S2 (s.next_prom + 1) = some (PromSt.pending []) := by
    show assoc ((s.proms ++ [(s.next_prom, PromSt.pending [])])
        ++ [(s.next_prom + 1, PromSt.pending [])]) (s.next_prom + 1)
      = some (PromSt.pending [])
    rw [assoc_append_of_none _ h1]
    simp [assoc]
  have hstep1 : attachK S2 cx (RKont.closeK (s.next_prom + 1))
      = setProm S2 cx (PromSt.pending [RKont.closeK (s.next_prom + 1)]) := by
    rw [attachK_pending hS2cx]
    rfl
  have hcpne : (s.next_prom + 1) ≠ cx := by omega
  have hS3cp : promSt (setProm S2 cx (PromSt.pending [RKont.closeK (s.next_prom + 1)]))
      (s.next_prom + 1) = some (PromSt.pending []) := by
    rw [promSt_setProm_other hcpne]
    exact hS2cp
  have hstep2 : attachK (setProm S2 cx (PromSt.pending [RKont.closeK (s.next_prom + 1)]))
      (s.next_prom + 1) (RKont.restartK s.next_prom)
      = setProm (setProm S2 cx (PromSt.pending [RKont.closeK (s.next_prom + 1)]))
          (s.next_prom + 1) (PromSt.pending [RKont.restartK s.next_prom]) := by
    rw [attachK_pending hS3cp]
    rfl
  set S3 : RState :=
    setProm (setProm S2 cx (PromSt.pending [RKont.closeK (s.next_prom + 1)]))
      (s.next_prom + 1) (PromSt.pending [RKont.restartK s.next_prom]) with hS3
  have hq3 : S3.queue = [] := hq
  show GoodR (drain (measureR (restartCall s).1 + 1) (restartCall s).1)
  rw [hrc]
  show GoodR (drain (measureR (attachK (attachK S2 cx (RKont.closeK (s.next_prom + 1)))
      (s.next_prom + 1) (RKont.restartK s.next_prom)) + 1)
    (attachK (attachK S2 cx (RKont.closeK (s.next_prom + 1)))
      (s.next_prom + 1) (RKont.restartK s.next_prom)))
  rw [hstep1, hstep2, drain_nil hq3]
  have hkeys3 : S3.proms.map (fun e => e.1)
      = (s.proms.map (fun e => e.1) ++ [s.next_prom]) ++ [s.next_prom + 1] := by
    show (setProm _ _ _).proms.map _ = _
    rw [setProm_keys, setProm_keys]
    show ((s.proms ++ [(s.next_prom, PromSt.pending [])])
        ++ [(s.next_prom + 1, PromSt.pending [])]).map (fun e => e.1) = _
    simp
  have hkmem : ∀ k ∈ s.proms.map (fun e => e.1), k < s.next_prom := by
    intro k hk
    obtain ⟨e, he, hke⟩ := List.mem_map.1 hk
    rw [← hke]
    exact hlt e he
  refine ⟨⟨hq3, hpk, ?_, ?_, hcpr⟩,
    Or.inr (Or.inr ⟨x, cx, s.next_prom + 1, s.next_prom, [], rfl, rfl, hpr, hcpx,
      ?_, ?_, by omega, by show s.next_prom < s.next_prom + 1 + 1; omega, ?_⟩)⟩
  · rw [hkeys3]
    refine keys_append_nodup (keys_append_nodup hnd hkmem) ?_
    intro k hk
    rcases List.mem_append.1 hk with hk | hk
    · have := hkmem k hk
      omega
    · simp only [List.mem_singleton] at hk
      omega
  · intro e he
    show e.1 < s.next_prom + 1 + 1
    rcases set_assoc_mem he with he | he
    · rw [he]
      show s.next_prom + 1 < s.next_prom + 1 + 1
      omega
    · rcases set_assoc_mem he with he | he
      · rw [he]
        show cx < s.next_prom + 1 + 1
        omega
      · rcases List.mem_append.1 he with he | he
        · rcases List.mem_append.1 he with he | he
          · have := hlt e he
            omega
          · simp only [List.mem_singleton] at he
            rw [he]
            show s.next_prom < s.next_prom + 1 + 1
            omega
        · simp only [List.mem_singleton] at he
          rw [he]
          show s.next_prom + 1 < s.next_prom + 1 + 1
          omega
  · show promSt S3 cx = _
    rw [hS3, promSt_setProm_other (by omega : cx ≠ s.next_prom + 1),
        promSt_setProm_self (by rw [hS2cx]; rfl)]
    rfl
  · show promSt S3 (s.next_prom + 1) = _
    rw [hS3, promSt_setProm_self (by rw [hS3cp]; rfl)]
  · intro e he hne1 hne2
    rcases set_assoc_mem he with he | he
    · exact absurd (congrArg Prod.fst he) hne2
    · rcases set_assoc_mem he with he | he
      · exact absurd (congrArg Prod.fst he) hne1
      · rcases List.mem_append.1 he with he | he
        · rcases List.mem_append.1 he with he | he
          · exact hemp e he hne1
          · simp only [List.mem_singleton] at he
            rw [he]
            exact Or.inr rfl
        · simp only [List.mem_singleton] at he
          rw [he]
          exact Or.inr rfl

theorem set_assoc_mem_strong {l : List (Nat × PromSt)} {p : Nat} {st : PromSt}
    {e : Nat × PromSt} (h : e ∈ set_assoc l p st) :
    e = (p, st) ∨ (e ∈ l ∧ e.1 ≠ p) := by
  induction l with
  | nil => simp [set_assoc] at h
  | cons x t ih =>
      cases x with
      | mk a b =>
          by_cases ha : a = p
          · subst ha
            simp only [set_assoc, eq_self_iff_true, if_true, List.mem_cons] at h
            rcases h with h | h
            · exact Or.inl h
            · rcases ih h with h2 | h2
              · exact Or.inl h2
              · exact Or.inr ⟨by simp [h2.1], h2.2⟩
          · simp only [set_assoc, if_neg ha, List.mem_cons] at h
            rcases h with h | h
            · refine Or.inr ⟨by simp [h], ?_⟩
              rw [h]
              exact ha
            · rcases ih h with h2 | h2
              · exact Or.inl h2
              · exact Or.inr ⟨by simp [h2.1], h2.2⟩

theorem resolveProm_empty {s : RState} (r : Nat)
    (hemp : ∀ e ∈ s.proms, reactions_empty e.2) :
    (resolveProm s r).queue = s.queue ∧
    (∀ e ∈ (resolveProm s r).proms, reactions_empty e.2) ∧
    (resolveProm s r).spawned = s.spawned ∧
    (resolveProm s r).restarting = s.restarting ∧
    (resolveProm s r).procs = s.procs ∧
    (resolveProm s r).closed_promR = s.closed_promR ∧
    (resolveProm s r).next_pid = s.next_pid ∧
    (resolveProm s r).next_prom = s.next_prom ∧
    (resolveProm s r).peak = s.peak ∧
    (resolveProm s r).proms.map (fun e => e.1) = s.proms.map (fun e => e.1) ∧
    (∀ q, q ≠ r → promSt (resolveProm s r) q = promSt s q) := by
  cases hst : promSt s r with
  | none =>
      rw [resolveProm_none hst]
      exact ⟨rfl, hemp, rfl, rfl, rfl, rfl, rfl, rfl, rfl, rfl, fun _ _ => rfl⟩
  | some st =>
      cases st with
      | resolvedP =>
          rw [resolveProm_resolved hst]
          exact ⟨rfl, hemp, rfl, rfl, rfl, rfl, rfl, rfl, rfl, rfl, fun _ _ => rfl⟩
      | pending ks =>
          have hks : ks = [] := by
            rcases hemp _ (assoc_mem hst) with h0 | h0
            · exact absurd h0 (by simp)
            · simpa using h0
          subst hks
          rw [resolveProm_pending hst]
          refine ⟨by simp, all_empty_setProm hemp, rfl, rfl, rfl, rfl, rfl, rfl, rfl,
            setProm_keys s r PromSt.resolvedP, ?_⟩
          intro q hqr
          exact promSt_setProm_other hqr

theorem restartK_step {u : RState} {rp : Nat}
    (hq : u.queue = [])
    (hemp : ∀ e ∈ u.proms, reactions_empty e.2)
    (hnd : (u.proms.map (fun e => e.1)).Nodup)
    (hlt : ∀ e ∈ u.proms, e.1 < u.next_prom)
    (hcpr : ∀ e ∈ u.closed_promR, e.1 < u.next_pid)
    (hpk : u.peak ≤ 1) (hpr : u.procs = []) (hre : u.restarting = none)
    (hrp : rp < u.next_prom) :
    GoodR (runKont u (RKont.restartK rp)) ∧ (runKont u (RKont.restartK rp)).queue = [] := by
  have hrunk : runKont u (RKont.restartK rp) =
      resolveProm
        { u with next_pid := u.next_pid + 1,
                 next_prom := u.next_prom + 1,
                 proms := u.proms ++ [(u.next_prom, PromSt.pending [])],
                 procs := u.procs ++ [u.next_pid],
                 closed_promR := u.closed_promR ++ [(u.next_pid, u.next_prom)],
                 peak := max u.peak (u.procs ++ [u.next_pid]).length,
                 spawned := some (u.next_pid, u.next_prom) } rp := by
    simp only [runKont, spawn_child, fresh_prom]
  set s2 : RState :=
      { u with next_pid := u.next_pid + 1,
               next_prom := u.next_prom + 1,
               proms := u.proms ++ [(u.next_prom, PromSt.pending [])],
               procs := u.procs ++ [u.next_pid],
               closed_promR := u.closed_promR ++ [(u.next_pid, u.next_prom)],
               peak := max u.peak (u.procs ++ [u.next_pid]).length,
               spawned := some (u.next_pid, u.next_prom) } with hs2
  have hemp2 : ∀ e ∈ s2.proms, reactions_empty e.2 := by
    intro e he
    rcases List.mem_append.1 he with he | he
    · exact hemp e he
    · simp only [List.mem_singleton] at he
      rw [he]
      exact Or.inr rfl
  obtain ⟨w1, w2, w3, w4, w5, w6, w7, w8, w9, w10, w11⟩ := resolveProm_empty rp hemp2
  rw [hrunk]
  have hqf : (resolveProm s2 rp).queue = [] := by
    rw [w1]
    exact hq
  refine ⟨⟨⟨hqf, ?_, ?_, ?_, ?_⟩, Or.inl ⟨u.next_pid, u.next_prom, ?_, ?_, ?_, ?_, ?_, ?_⟩⟩, hqf⟩
  · rw [w9]
    show max u.peak (u.procs ++ [u.next_pid]).length ≤ 1
    rw [hpr]
    simp
    exact hpk
  · rw [w10]
    show ((u.proms ++ [(u.next_prom, PromSt.pending [])]).map (fun e => e.1)).Nodup
    rw [List.map_append]
    exact keys_append_nodup hnd fun k hk => by
      obtain ⟨e, he, hke⟩ := List.mem_map.1 hk
      rw [← hke]
      exact hlt e he
  · intro e he
    have hkeys : (resolveProm s2 rp).proms.map (fun e => e.1) = s2.proms.map (fun e => e.1) := w10
    have hmem : e.1 ∈ s2.proms.map (fun e => e.1) := by
      rw [← hkeys]
      exact List.mem_map.2 ⟨e, he, rfl⟩
    obtain ⟨f, hf, hfe⟩ := List.mem_map.1 hmem
    rw [w8]
    show e.1 < u.next_prom + 1
    rw [← hfe]
    rcases List.mem_append.1 hf with hf | hf
    · have := hlt f hf
      omega
    · simp only [List.mem_singleton] at hf
      rw [hf]
      omega
  · rw [w6, w7]
    intro e he
    show e.1 < u.next_pid + 1
    rcases List.mem_append.1 he with he | he
    · have := hcpr e he
      omega
    · simp only [List.mem_singleton] at he
      rw [he]
      omega
  · rw [w3]
  · rw [w4]
    exact hre
  · rw [w5]
    show u.procs ++ [u.next_pid] = [u.next_pid]
    rw [hpr]
    rfl
  · rw [w6]
    show assoc (u.closed_promR ++ [(u.next_pid, u.next_prom)]) u.next_pid = some u.next_prom
    rw [assoc_append_of_none _ (assoc_none_of_forall fun e he => by
      have := hcpr e he; omega)]
    simp [assoc]
  · rw [w11 u.next_prom (by omega)]
    show assoc (u.proms ++ [(u.next_prom, PromSt.pending [])]) u.next_prom
        = some (PromSt.pending [])
    rw [assoc_append_of_none _ (assoc_none_of_forall fun e he => by
      have := hlt e he; omega)]
    simp [assoc]
  · intro e he _
    exact w2 e he

theorem rstep_procClose_not_mem {s : RState} (hq : s.queue = []) {pid : Nat}
    (hmem : pid ∉ s.procs) : rstep s (REvent.procClose pid) = s := by
  simp only [rstep, if_neg hmem]
  exact drain_nil hq _

theorem kontsWeight_closeK_cons (cp : Nat) (l : List RKont) :
    kontsWeight (RKont.closeK cp :: l) = 1 + kontsWeight l := by
  simp only [kontsWeight, List.map_cons, List.sum_cons]
  rw [show kweight (RKont.closeK cp) = 1 from rfl]

theorem restartCall_pathA {s : RState} {p : Nat} (hre : s.restarting = some p) :
    restartCall s =
      (attachK { s with next_prom := s.next_prom + 1,
                        proms := s.proms ++ [(s.next_prom, PromSt.pending [])] }
        p (RKont.resolveK s.next_prom), s.next_prom) := by
  simp only [restartCall, hre, fresh_prom]

theorem assoc_eq_of_mem_nodup {l : List (Nat × PromSt)}
    (hnd : (l.map (fun e => e.1)).Nodup) {e : Nat × PromSt} (he : e ∈ l) :
    assoc l e.1 = some e.2 := by
  induction l with
  | nil => simp at he
  | cons x t ih =>
      cases x with
      | mk a b =>
          simp only [List.map_cons, List.nodup_cons] at hnd
          rcases List.mem_cons.1 he with he | he
          · rw [he]
            simp [assoc]
          · have hne : e.1 ≠ a := by
              intro hc
              exact hnd.1 (by rw [← hc]; exact List.mem_map.2 ⟨e, he, rfl⟩)
            simp only [assoc, if_neg (fun hc : a = e.1 => hne hc.symm)]
            exact ih hnd.2 he

/-- A restart issued while a transition is already in flight: coalesce. -/
theorem good_closing_restart {s : RState} (hb : RBook s) (hr : ShapeClosing s) :
    GoodR (rstep s REvent.callRestart) := by
  obtain ⟨hq, hpk, hnd, hlt, hcpr⟩ := hb
  obtain ⟨x, cx, cp, rp, rps, hsp, hre, hpr, hcpx, hcxst, hcpst, hcpne, hrplt, hemp⟩ := hr
  have hrc := restartCall_pathA hre
  set S1 : RState := { s with next_prom := s.next_prom + 1,
                              proms := s.proms ++ [(s.next_prom, PromSt.pending [])] }
    with hS1
  have hS1cx : promSt S1 cx
      = some (PromSt.pending (RKont.closeK cp :: rps.map RKont.resolveK)) :=
    assoc_append_of_some _ hcxst
  have hstep : attachK S1 cx (RKont.resolveK s.next_prom)
      = setProm S1 cx (PromSt.pending
          (RKont.closeK cp :: (rps ++ [s.next_prom]).map RKont.resolveK)) := by
    rw [attachK_pending hS1cx]
    simp
  have hq3 : (setProm S1 cx (PromSt.pending
      (RKont.closeK cp :: (rps ++ [s.next_prom]).map RKont.resolveK))).queue = [] := hq
  show GoodR (drain (measureR (restartCall s).1 + 1) (restartCall s).1)
  rw [hrc]
  show GoodR (drain (measureR (attachK S1 cx (RKont.resolveK s.next_prom)) + 1)
    (attachK S1 cx (RKont.resolveK s.next_prom)))
  rw [hstep, drain_nil hq3]
  have hkmem : ∀ k ∈ s.proms.map (fun e => e.1), k < s.next_prom := by
    intro k hk
    obtain ⟨e, he, hke⟩ := List.mem_map.1 hk
    rw [← hke]
    exact hlt e he
  refine ⟨⟨hq3, hpk, ?_, ?_, hcpr⟩,
    Or.inr (Or.inr ⟨x, cx, cp, rp, rps ++ [s.next_prom], hsp, hre, hpr, hcpx,
      ?_, ?_, hcpne, by show rp < s.next_prom + 1; omega, ?_⟩)⟩
  · rw [setProm_keys]
    show ((s.proms ++ [(s.next_prom, PromSt.pending [])]).map (fun e => e.1)).Nodup
    rw [List.map_append]
    exact keys_append_nodup hnd hkmem
  · intro e he
    show e.1 < s.next_prom + 1
    rcases set_assoc_mem he with he | he
    · rw [he]
      show cx < s.next_prom + 1
      have := hlt _ (assoc_mem hcxst)
      omega
    · rcases List.mem_append.1 he with he | he
      · have := hlt e he
        omega
      · simp only [List.mem_singleton] at he
        rw [he]
        omega
  · show promSt _ cx = _
    rw [promSt_setProm_self (by rw [hS1cx]; rfl)]
  · show promSt _ cp = _
    rw [promSt_setProm_other hcpne]
    exact assoc_append_of_some _ hcpst
  · intro e he hne1 hne2
    rcases set_assoc_mem_strong he with he | he
    · exact absurd (congrArg Prod.fst he) hne1
    · rcases List.mem_append.1 he.1 with he2 | he2
      · exact hemp e he2 hne1 hne2
      · simp only [List.mem_singleton] at he2
        rw [he2]
        exact Or.inr rfl

/-- The OS close of the running child: the slot keeps the dead handle. -/
theorem good_run_procClose {s : RState} (hb : RBook s) (hr : ShapeRun s) (pid : Nat) :
    GoodR (rstep s (REvent.procClose pid)) := by
  obtain ⟨hq, hpk, hnd, hlt, hcpr⟩ := hb
  obtain ⟨x, cx, hsp, hre, hpr, hcpx, hcxst, hemp⟩ := hr
  by_cases hmem : pid ∈ s.procs
  · have hpid : pid = x := by
      rw [hpr] at hmem
      simpa using hmem
    subst hpid
    have hdel : set_delete s.procs pid = [] := by
      rw [hpr]
      simp [set_delete]
    have hcpx2 : assoc s.closed_promR pid = some cx := hcpx
    simp only [rstep, if_pos hmem, hcpx2]
    have hcxst2 : promSt { s with procs := set_delete s.procs pid } cx
        = some (PromSt.pending []) := hcxst
    rw [resolveProm_pending hcxst2]
    have hqf : ({ setProm { s with procs := set_delete s.procs pid } cx PromSt.resolvedP
        with queue := ({ s with procs := set_delete s.procs pid } : RState).queue
          ++ [] } : RState).queue = [] := by
      simp [hq]
    rw [drain_nil hqf]
    refine ⟨⟨hqf, hpk, ?_, ?_, hcpr⟩,
      Or.inr (Or.inl ⟨pid, cx, hsp, hre, ?_, hcpx, ?_, ?_⟩)⟩
    · show ((setProm _ cx PromSt.resolvedP).proms.map (fun e => e.1)).Nodup
      rw [setProm_keys]
      exact hnd
    · intro e he
      show e.1 < s.next_prom
      rcases set_assoc_mem he with he | he
      · rw [he]
        show cx < s.next_prom
        exact hlt (cx, PromSt.pending []) (assoc_mem hcxst)
      · exact hlt e he
    · show set_delete s.procs pid = []
      exact hdel
    · show promSt _ cx = some PromSt.resolvedP
      exact promSt_setProm_self (by rw [hcxst2]; rfl)
    · intro e he
      rcases set_assoc_mem_strong he with he | he
      · rw [he]
        exact Or.inl rfl
      · by_cases hcxe : e.1 = cx
        · have hassoc : assoc s.proms cx = some (PromSt.pending []) := hcxst
          have hthis := assoc_eq_of_mem_nodup hnd he.1
          rw [hcxe, hassoc] at hthis
          have he2 : e.2 = PromSt.pending [] := by
            injection hthis with h2
            exact h2.symm
          rw [he2]
          exact Or.inr rfl
        · exact hemp e he.1 hcxe
  · rw [rstep_procClose_not_mem hq hmem]
    exact ⟨⟨hq, hpk, hnd, hlt, hcpr⟩, Or.inl ⟨x, cx, hsp, hre, hpr, hcpx, hcxst, hemp⟩⟩

/-- A stale slot sees no further close events. -/
theorem good_stale_procClose {s : RState} (hb : RBook s) (hr : ShapeStale s) (pid : Nat) :
    GoodR (rstep s (REvent.procClose pid)) := by
  obtain ⟨hq, hpk, hnd, hlt, hcpr⟩ := hb
  obtain ⟨x, cx, hsp, hre, hpr, hcpx, hcxst, hemp⟩ := hr
  have hmem : pid ∉ s.procs := by
    rw [hpr]
    simp
  rw [rstep_procClose_not_mem hq hmem]
  exact ⟨⟨hq, hpk, hnd, hlt, hcpr⟩, Or.inr (Or.inl ⟨x, cx, hsp, hre, hpr, hcpx, hcxst, hemp⟩)⟩

/-- A restart on a stale slot: the dead child's resolved promise makes the
close continuation run immediately and a fresh child is spawned. -/
theorem good_stale_restart {s : RState} (hb : RBook s) (hr : ShapeStale s) :
    GoodR (rstep s REvent.callRestart) := by
  obtain ⟨hq, hpk, hnd, hlt, hcpr⟩ := hb
  obtain ⟨x, cx, hsp, hre, hpr, hcpx, hcxst, hemp⟩ := hr
  have hrc := restartCall_pathB hre hsp
  set S2 : RState :=
    { s with next_prom := s.next_prom + 1 + 1,
             proms := (s.proms ++ [(s.next_prom, PromSt.pending [])])
                        ++ [(s.next_prom + 1, PromSt.pending [])],
             restarting := some cx,
             rsignaled := s.rsignaled ++ [x],
             spawned := none } with hS2
  have hS2cx : promSt S2 cx = some PromSt.resolvedP :=
    assoc_append_of_some _ (assoc_append_of_some _ hcxst)
  have hstep1 : attachK S2 cx (RKont.closeK (s.next_prom + 1))
      = { S2 with queue := S2.queue ++ [RKont.closeK (s.next_prom + 1)] } :=
    attachK_resolved hS2cx
  have h0 : assoc s.proms (s.next_prom + 1) = none :=
    assoc_none_of_forall fun e he => by have := hlt e he; omega
  have h1 : assoc (s.proms ++ [(s.next_prom, PromSt.pending [])])
      (s.next_prom + 1) = none := by
    rw [assoc_append_of_none _ h0]
    have hne : s.next_prom ≠ s.next_prom + 1 := by omega
    simp [assoc, hne]
  have hS2cp : promSt S2 (s.next_prom + 1) = some (PromSt.pending []) := by
    show assoc ((s.proms ++ [(s.next_prom, PromSt.pending [])])
        ++ [(s.next_prom + 1, PromSt.pending [])]) (s.next_prom + 1) = _
    rw [assoc_append_of_none _ h1]
    simp [assoc]
  have hQ1cp : promSt { S2 with queue := S2.queue ++ [RKont.closeK (s.next_prom + 1)] }
      (s.next_prom + 1) = some (PromSt.pending []) := hS2cp
  have hstep2 : attachK { S2 with queue := S2.queue ++ [RKont.closeK (s.next_prom + 1)] }
      (s.next_prom + 1) (RKont.restartK s.next_prom)
      = setProm { S2 with queue := S2.queue ++ [RKont.closeK (s.next_prom + 1)] }
          (s.next_prom + 1) (PromSt.pending [RKont.restartK s.next_prom]) := by
    rw [attachK_pending hQ1cp]
    rfl
  set S3 : RState :=
    setProm { S2 with queue := S2.queue ++ [RKont.closeK (s.next_prom + 1)] }
      (s.next_prom + 1) (PromSt.pending [RKont.restartK s.next_prom]) with hS3
  have hq3 : S3.queue = [RKont.closeK (s.next_prom + 1)] := by
    show s.queue ++ [RKont.closeK (s.next_prom + 1)] = _
    rw [hq]
    rfl
  show GoodR (drain (measureR (restartCall s).1 + 1) (restartCall s).1)
  rw [hrc]
  show GoodR (drain (measureR (attachK (attachK S2 cx (RKont.closeK (s.next_prom + 1)))
      (s.next_prom + 1) (RKont.restartK s.next_prom)) + 1)
    (attachK (attachK S2 cx (RKont.closeK (s.next_prom + 1)))
      (s.next_prom + 1) (RKont.restartK s.next_prom)))
  rw [hstep1, hstep2]
  rw [drain_step hq3]
  have hrunk : runKont { S3 with queue := [] } (RKont.closeK (s.next_prom + 1))
      = resolveProm { S3 with queue := [], restarting := none } (s.next_prom + 1) := rfl
  rw [hrunk]
  have hS3cpSome : promSt S3 (s.next_prom + 1)
      = some (PromSt.pending [RKont.restartK s.next_prom]) :=
    promSt_setProm_self (by rw [hQ1cp]; rfl)
  have hS3cp2 : promSt { S3 with queue := ([] : List RKont), restarting := none }
      (s.next_prom + 1) = some (PromSt.pending [RKont.restartK s.next_prom]) := hS3cpSome
  rw [resolveProm_pending hS3cp2]
  set U : RState :=
    { setProm { S3 with queue := ([] : List RKont), restarting := none }
        (s.next_prom + 1) PromSt.resolvedP
      with queue := ([] : List RKont) ++ [RKont.restartK s.next_prom] } with hU
  have hqU : U.queue = RKont.restartK s.next_prom :: [] := rfl
  have hfuel : 1 ≤ measureR S3 := by
    have hmg := measureR_ge_queue S3
    rw [hq3] at hmg
    have : kontsWeight [RKont.closeK (s.next_prom + 1)] = 1 := by
      simp [kontsWeight]
      rfl
    omega
  obtain ⟨m, hm⟩ : ∃ m, measureR S3 = m + 1 := ⟨measureR S3 - 1, by omega⟩
  rw [hm, drain_step hqU]
  have hempU : ∀ e ∈ ({ U with queue := ([] : List RKont) } : RState).proms,
      reactions_empty e.2 := by
    intro e he
    rcases set_assoc_mem_strong he with he | he
    · rw [he]
      exact Or.inl rfl
    · rcases set_assoc_mem_strong he.1 with he2 | he2
      · exact absurd (congrArg Prod.fst he2) he.2
      · rcases List.mem_append.1 he2.1 with he3 | he3
        · rcases List.mem_append.1 he3 with he4 | he4
          · exact hemp e he4
          · simp only [List.mem_singleton] at he4
            rw [he4]
            exact Or.inr rfl
        · simp only [List.mem_singleton] at he3
          rw [he3]
          exact Or.inr rfl
  have hkeysU : ({ U with queue := ([] : List RKont) } : RState).proms.map (fun e => e.1)
      = (s.proms.map (fun e => e.1) ++ [s.next_prom]) ++ [s.next_prom + 1] := by
    show (set_assoc (set_assoc _ _ _) _ _).map (fun e => e.1) = _
    rw [set_assoc_keys, set_assoc_keys]
    show ((s.proms ++ [(s.next_prom, PromSt.pending [])])
        ++ [(s.next_prom + 1, PromSt.pending [])]).map (fun e => e.1) = _
    simp
  have hkmem : ∀ k ∈ s.proms.map (fun e => e.1), k < s.next_prom := by
    intro k hk
    obtain ⟨e, he, hke⟩ := List.mem_map.1 hk
    rw [← hke]
    exact hlt e he
  have hndU : (({ U with queue := ([] : List RKont) } : RState).proms.map
      (fun e => e.1)).Nodup := by
    rw [hkeysU]
    refine keys_append_nodup (keys_append_nodup hnd hkmem) ?_
    intro k hk
    rcases List.mem_append.1 hk with hk | hk
    · have := hkmem k hk
      omega
    · simp only [List.mem_singleton] at hk
      omega
  have hltU : ∀ e ∈ ({ U with queue := ([] : List RKont) } : RState).proms,
      e.1 < ({ U with queue := ([] : List RKont) } : RState).next_prom := by
    intro e he
    have hk : e.1 ∈ ({ U with queue := ([] : List RKont) } : RState).proms.map
        (fun e => e.1) := List.mem_map.2 ⟨e, he, rfl⟩
    rw [hkeysU] at hk
    show e.1 < s.next_prom + 1 + 1
    rcases List.mem_append.1 hk with hk | hk
    · rcases List.mem_append.1 hk with hk | hk
      · have := hkmem _ hk
        omega
      · simp only [List.mem_singleton] at hk
        omega
    · simp only [List.mem_singleton] at hk
      omega
  obtain ⟨hGood, hqfin⟩ := restartK_step (u := { U with queue := ([] : List RKont) })
    rfl hempU hndU hltU hcpr hpk hpr rfl
    (by show s.next_prom < s.next_prom + 1 + 1; omega)
  rw [drain_nil hqfin]
  exact hGood

/-- The OS close of the dying child completes the in-flight transition:
close resumes, the coalesced restarts resolve, and the respawn continuation
spawns exactly one fresh child. -/
theorem good_closing_procClose {s : RState} (hb : RBook s) (hr : ShapeClosing s)
    (pid : Nat) : GoodR (rstep s (REvent.procClose pid)) := by
  obtain ⟨hq, hpk, hnd, hlt, hcpr⟩ := hb
  obtain ⟨x, cx, cp, rp, rps, hsp, hre, hpr, hcpx, hcxst, hcpst, hcpne, hrplt, hemp⟩ := hr
  by_cases hmem : pid ∈ s.procs
  · have hpid : pid = x := by
      rw [hpr] at hmem
      simpa using hmem
    subst hpid
    have hdel : set_delete s.procs pid = [] := by
      rw [hpr]
      simp [set_delete]
    have hcpx2 : assoc s.closed_promR pid = some cx := hcpx
    simp only [rstep, if_pos hmem, hcpx2]
    have hcxst2 : promSt { s with procs := set_delete s.procs pid } cx
        = some (PromSt.pending (RKont.closeK cp :: rps.map RKont.resolveK)) := hcxst
    rw [resolveProm_pending hcxst2]
    set X : RState :=
      { setProm { s with procs := set_delete s.procs pid } cx PromSt.resolvedP
        with queue := ({ s with procs := set_delete s.procs pid } : RState).queue
          ++ (RKont.closeK cp :: rps.map RKont.resolveK) } with hX
    have hqX : X.queue = RKont.closeK cp :: rps.map RKont.resolveK := by
      show s.queue ++ _ = _
      rw [hq]
      rfl
    have hwq : kontsWeight X.queue = 1 + rps.length := by
      rw [hqX, kontsWeight_closeK_cons, kontsWeight_resolveKs]
    have hge : rps.length + 1 ≤ measureR X := by
      have := measureR_ge_queue X
      omega
    rw [drain_step hqX]
    have hrunk : runKont { X with queue := rps.map RKont.resolveK } (RKont.closeK cp)
        = resolveProm { X with queue := rps.map RKont.resolveK, restarting := none } cp :=
      rfl
    rw [hrunk]
    have hXcp : promSt { X with queue := rps.map RKont.resolveK, restarting := none } cp
        = some (PromSt.pending [RKont.restartK rp]) := by
      show promSt (setProm { s with procs := set_delete s.procs pid } cx PromSt.resolvedP)
          cp = _
      rw [promSt_setProm_other hcpne]
      exact hcpst
    rw [resolveProm_pending hXcp]
    set W : RState :=
      { setProm { X with queue := rps.map RKont.resolveK, restarting := none }
          cp PromSt.resolvedP
        with queue := ({ X with queue := rps.map RKont.resolveK, restarting := none }
          : RState).queue ++ [RKont.restartK rp] } with hW
    have hqW : W.queue = rps.map RKont.resolveK ++ [RKont.restartK rp] := rfl
    have hempW : ∀ e ∈ W.proms, reactions_empty e.2 := by
      intro e he
      rcases set_assoc_mem_strong he with he | he
      · rw [he]
        exact Or.inl rfl
      · rcases set_assoc_mem_strong he.1 with he2 | he2
        · rw [he2]
          exact Or.inl rfl
        · exact hemp e he2.1 he2.2 he.2
    have hsplit : measureR X = rps.length + (measureR X - rps.length) := by omega
    rw [hsplit, drain_add]
    obtain ⟨S5, hd5, hq5, hemp5, hf1, hf2, hf3, hf4, hf5, hf6, hf7, hf8⟩ :=
      resolve_block rps W [RKont.restartK rp] hempW hqW
    rw [hd5]
    obtain ⟨m, hm⟩ : ∃ m, measureR X - rps.length = m + 1 :=
      ⟨measureR X - rps.length - 1, by omega⟩
    have hq5c : S5.queue = RKont.restartK rp :: [] := by rw [hq5]
    rw [hm, drain_step hq5c]
    have hWkeys : W.proms.map (fun e => e.1) = s.proms.map (fun e => e.1) := by
      show (set_assoc (set_assoc s.proms cx PromSt.resolvedP) cp PromSt.resolvedP).map
          (fun e => e.1) = _
      rw [set_assoc_keys, set_assoc_keys]
    have hkeys5 : ({ S5 with queue := ([] : List RKont) } : RState).proms.map (fun e => e.1)
        = s.proms.map (fun e => e.1) := by
      show S5.proms.map (fun e => e.1) = _
      rw [hf8, hWkeys]
    have hnd5 : (({ S5 with queue := ([] : List RKont) } : RState).proms.map
        (fun e => e.1)).Nodup := by
      rw [hkeys5]
      exact hnd
    have hnp5 : ({ S5 with queue := ([] : List RKont) } : RState).next_prom
        = s.next_prom := by
      show S5.next_prom = s.next_prom
      rw [hf6]
      rfl
    have hlt5 : ∀ e ∈ ({ S5 with queue := ([] : List RKont) } : RState).proms,
        e.1 < ({ S5 with queue := ([] : List RKont) } : RState).next_prom := by
      intro e he
      rw [hnp5]
      have hk : e.1 ∈ ({ S5 with queue := ([] : List RKont) } : RState).proms.map
          (fun e => e.1) := List.mem_map.2 ⟨e, he, rfl⟩
      rw [hkeys5] at hk
      obtain ⟨f, hf, hfe⟩ := List.mem_map.1 hk
      rw [← hfe]
      exact hlt f hf
    have hcpr5 : ∀ e ∈ ({ S5 with queue := ([] : List RKont) } : RState).closed_promR,
        e.1 < ({ S5 with queue := ([] : List RKont) } : RState).next_pid := by
      show ∀ e ∈ S5.closed_promR, e.1 < S5.next_pid
      rw [hf4, hf5]
      show ∀ e ∈ s.closed_promR, e.1 < s.next_pid
      exact hcpr
    have hpk5 : ({ S5 with queue := ([] : List RKont) } : RState).peak ≤ 1 := by
      show S5.peak ≤ 1
      rw [hf7]
      exact hpk
    have hpr5 : ({ S5 with queue := ([] : List RKont) } : RState).procs = [] := by
      show S5.procs = []
      rw [hf3]
      show set_delete s.procs pid = []
      exact hdel
    have hre5 : ({ S5 with queue := ([] : List RKont) } : RState).restarting = none := by
      show S5.restarting = none
      rw [hf2]
      rfl
    have hrp5 : rp < ({ S5 with queue := ([] : List RKont) } : RState).next_prom := by
      rw [hnp5]
      exact hrplt
    obtain ⟨hGood, hqfin⟩ := restartK_step (u := { S5 with queue := ([] : List RKont) })
      rfl (fun e he => hemp5 e he) hnd5 hlt5 hcpr5 hpk5 hpr5 hre5 hrp5
    rw [drain_nil hqfin]
    exact hGood
  · rw [rstep_procClose_not_mem hq hmem]
    exact ⟨⟨hq, hpk, hnd, hlt, hcpr⟩,
      Or.inr (Or.inr ⟨x, cx, cp, rp, rps, hsp, hre, hpr, hcpx, hcxst, hcpst, hcpne,
        hrplt, hemp⟩)⟩

theorem goodR_step {s : RState} (hg : GoodR s) {e : REvent} (he : e ≠ REvent.callKill) :
    GoodR (rstep s e) := by
  obtain ⟨hb, hsh⟩ := hg
  cases e with
  | callKill => exact absurd rfl he
  | callRestart =>
      rcases hsh with h | h | h
      · exact good_run_restart hb h
      · exact good_stale_restart hb h
      · exact good_closing_restart hb h
  | procClose pid =>
      rcases hsh with h | h | h
      · exact good_run_procClose hb h pid
      · exact good_stale_procClose hb h pid
      · exact good_closing_procClose hb h pid

theorem goodR_rinit : GoodR rinit := by
  refine ⟨⟨?_, ?_, ?_, ?_, ?_⟩, Or.inl ⟨0, 1, ?_, ?_, ?_, ?_, ?_, ?_⟩⟩
  · decide
  · decide
  · decide
  · decide
  · decide
  · decide
  · decide
  · decide
  · decide
  · decide
  · decide

theorem goodR_run : ∀ (es : List REvent) (s : RState), GoodR s →
    (∀ e ∈ es, e ≠ REvent.callKill) → GoodR (rrun s es) := by
  intro es
  induction es with
  | nil => intro s hg _; exact hg
  | cons e rest ih =>
      intro s hg hkf
      exact ih (rstep s e) (goodR_step hg (hkf e (by simp)))
        fun f hf => hkf f (by simp [hf])

theorem goodR_procs_le {s : RState} (hg : GoodR s) : s.procs.length ≤ 1 := by
  rcases hg.2 with ⟨x, cx, _, _, hpr, _⟩ | ⟨x, cx, _, _, hpr, _⟩ |
    ⟨x, cx, cp, rp, rps, _, _, hpr, _⟩ <;> rw [hpr] <;> simp

/-- C2.  First, over every event trace without a `kill` call, at most one
physical child of the restartable process is live at any instant: the
instrumented peak of the live-set size never exceeds one (the peak is
updated at every spawn, the only operation that grows the live set), and in
particular the final live-set size is at most one.  Second, the coalescing
mechanism: a `restart()` issued while the `restarting` promise is set
performs no spawn, no kill and no state transition of its own — it merely
returns a future chained onto the same in-flight promise.  Third, the
two-rapid-restarts scenario: construct (spawning pid 0; restart call 1 has
promise 2, the coalesced restart call 2 has promise 4), call `restart()`
twice in succession before the transition completes, then let pid 0 close:
exactly one live child (pid 1) remains, both restart futures have resolved,
and the live peak never exceeded one. -/
theorem restart_coalesces_single_live_child :
    (∀ es : List REvent, (∀ e ∈ es, e ≠ REvent.callKill) →
       (rrun rinit es).peak ≤ 1 ∧ (rrun rinit es).procs.length ≤ 1) ∧
    (∀ (s : RState) (p : Nat), s.restarting = some p →
       (restartCall s).1.procs = s.procs ∧
       (restartCall s).1.spawned = s.spawned ∧
       (restartCall s).1.rsignaled = s.rsignaled ∧
       (restartCall s).1.next_pid = s.next_pid ∧
       (restartCall s).1.restarting = s.restarting) ∧
    ((rrun rinit [REvent.callRestart, REvent.callRestart, REvent.procClose 0]).procs
        = [1] ∧
     isResolvedR (rrun rinit [REvent.callRestart, REvent.callRestart, REvent.procClose 0])
        2 = true ∧
     isResolvedR (rrun rinit [REvent.callRestart, REvent.callRestart, REvent.procClose 0])
        4 = true ∧
     (rrun rinit [REvent.callRestart, REvent.callRestart, REvent.procClose 0]).peak = 1) := by
  refine ⟨?_, ?_, ?_⟩
  · intro es hkf
    have hg := goodR_run es rinit goodR_rinit hkf
    exact ⟨hg.1.2.1, goodR_procs_le hg⟩
  · intro s p hp
    rw [restartCall_pathA hp]
    obtain ⟨a1, a2, a3, a4, _, a6, _, _⟩ :=
      attachK_frame { s with next_prom := s.next_prom + 1,
                             proms := s.proms ++ [(s.next_prom, PromSt.pending [])] }
        p (RKont.resolveK s.next_prom)
    exact ⟨a3.trans rfl, a1.trans rfl, a4.trans rfl, a6.trans rfl, a2.trans rfl⟩
  · exact ⟨by decide, by decide, by decide, by decide⟩

/-- C2, witness: the kill-free bound applied to a concrete trace, and the
coalescing frame applied to the state in which a transition is in flight
(after the first restart, `restarting` holds promise 1). -/
theorem restart_coalesces_single_live_child_witness :
    ((rrun rinit [REvent.callRestart, REvent.procClose 0]).peak ≤ 1 ∧
     (rrun rinit [REvent.callRestart, REvent.procClose 0]).procs.length ≤ 1) ∧
    ((restartCall (rrun rinit [REvent.callRestart])).1.procs
        = (rrun rinit [REvent.callRestart]).procs ∧
     (restartCall (rrun rinit [REvent.callRestart])).1.spawned
        = (rrun rinit [REvent.callRestart]).spawned ∧
     (restartCall (rrun rinit [REvent.callRestart])).1.rsignaled
        = (rrun rinit [REvent.callRestart]).rsignaled ∧
     (restartCall (rrun rinit [REvent.callRestart])).1.next_pid
        = (rrun rinit [REvent.callRestart]).next_pid ∧
     (restartCall (rrun rinit [REvent.callRestart])).1.restarting
        = (rrun rinit [REvent.callRestart]).restarting) :=
  ⟨restart_coalesces_single_live_child.1 [REvent.callRestart, REvent.procClose 0]
     (by decide),
   restart_coalesces_single_live_child.2.1 (rrun rinit [REvent.callRestart]) 1 (by decide)⟩

end FeltUtil
